import Mathlib

/-!
Shallow embedding of the `rust-logic-tools` repository (files `logic.rs`,
`truth_table_size_5.rs`, `formula_precomputer.rs`) and proofs about the claims
on its specification.

Machine `u32` values are modelled as `Nat`; every arithmetic operation the
source performs is overflow-free for the values that actually occur (all masks
stay below `2^32`), except the two left shifts noted below, whose overflow
(a panic in Rust) is modelled by `Option.none`.  Rust `panic!`, index
out-of-bounds and shift-overflow are all modelled as `Option.none`.
-/

/-! ## logic.rs: literals and the formula data model -/

/-- `NEGATIVITY_FLAG` from logic.rs: the highest-order bit of a `u32`. -/
def NEGATIVITY_FLAG : Nat := 1 <<< 31

/-- `VARIABLE_INDEX_MASK = !NEGATIVITY_FLAG` (as a `u32`). -/
def VARIABLE_INDEX_MASK : Nat := 2 ^ 32 - 1 - NEGATIVITY_FLAG

/-- `get_variable_index` from logic.rs. -/
def get_variable_index (literal : Nat) : Nat := literal &&& VARIABLE_INDEX_MASK

/-- `is_positive_literal` from logic.rs. -/
def is_positive_literal (literal : Nat) : Bool := literal &&& NEGATIVITY_FLAG == 0

/-- `SimpleLogicNode` from logic.rs: `False | True | Literal | Conjunction | Disjunction`. -/
inductive SimpleLogicNode where
  | False
  | True
  | Literal (literal : Nat)
  | Conjunction (ops : List SimpleLogicNode)
  | Disjunction (ops : List SimpleLogicNode)

mutual

/-- Decidable structural equality of `SimpleLogicNode` (Rust's derived `==`). -/
def SimpleLogicNode.decEq : (a b : SimpleLogicNode) → Decidable (a = b)
  | .False, .False => isTrue rfl
  | .True, .True => isTrue rfl
  | .Literal l1, .Literal l2 =>
      match Nat.decEq l1 l2 with
      | isTrue h => isTrue (by rw [h])
      | isFalse h => isFalse (by intro hc; injection hc; contradiction)
  | .Conjunction o1, .Conjunction o2 =>
      match SimpleLogicNode.decEqList o1 o2 with
      | isTrue h => isTrue (by rw [h])
      | isFalse h => isFalse (by intro hc; injection hc; contradiction)
  | .Disjunction o1, .Disjunction o2 =>
      match SimpleLogicNode.decEqList o1 o2 with
      | isTrue h => isTrue (by rw [h])
      | isFalse h => isFalse (by intro hc; injection hc; contradiction)
  | .False, .True | .False, .Literal _ | .False, .Conjunction _ | .False, .Disjunction _
  | .True, .False | .True, .Literal _ | .True, .Conjunction _ | .True, .Disjunction _
  | .Literal _, .False | .Literal _, .True | .Literal _, .Conjunction _
  | .Literal _, .Disjunction _
  | .Conjunction _, .False | .Conjunction _, .True | .Conjunction _, .Literal _
  | .Conjunction _, .Disjunction _
  | .Disjunction _, .False | .Disjunction _, .True | .Disjunction _, .Literal _
  | .Disjunction _, .Conjunction _ => isFalse (by intro hc; exact absurd hc (by simp))

def SimpleLogicNode.decEqList : (a b : List SimpleLogicNode) → Decidable (a = b)
  | [], [] => isTrue rfl
  | [], _ :: _ => isFalse (by intro hc; exact absurd hc (by simp))
  | _ :: _, [] => isFalse (by intro hc; exact absurd hc (by simp))
  | x :: xs, y :: ys =>
      match SimpleLogicNode.decEq x y with
      | isFalse h => isFalse (by intro hc; injection hc; contradiction)
      | isTrue h1 =>
          match SimpleLogicNode.decEqList xs ys with
          | isTrue h2 => isTrue (by rw [h1, h2])
          | isFalse h => isFalse (by intro hc; injection hc; contradiction)

end

instance : DecidableEq SimpleLogicNode := SimpleLogicNode.decEq

mutual

/-- `SimpleLogicNode::count_binary_operators` from logic.rs: each
`Conjunction`/`Disjunction` node counts 1 plus its children's counts. -/
def SimpleLogicNode.count_binary_operators : SimpleLogicNode → Nat
  | .False => 0
  | .True => 0
  | .Literal _ => 0
  | .Conjunction ops => 1 + SimpleLogicNode.countListOps ops
  | .Disjunction ops => 1 + SimpleLogicNode.countListOps ops

/-- The `for operand in operands` accumulation inside `count_binary_operators`. -/
def SimpleLogicNode.countListOps : List SimpleLogicNode → Nat
  | [] => 0
  | o :: rest => o.count_binary_operators + SimpleLogicNode.countListOps rest

end

/-! ## formula_precomputer.rs: `LogicFormulaBucket` -/

/-- `LogicFormulaBucket` from formula_precomputer.rs. -/
structure LogicFormulaBucket where
  minimum_formula : Option SimpleLogicNode
  formula_vector : List SimpleLogicNode
deriving DecidableEq

/-- The empty bucket every truth-table index starts with. -/
def emptyBucket : LogicFormulaBucket := { minimum_formula := none, formula_vector := [] }

/-- `LogicFormulaBucket::add_formula`: push the formula, then adopt it as the
minimum when there is none yet or when its operator count is strictly smaller. -/
def LogicFormulaBucket.add_formula (b : LogicFormulaBucket) (formula : SimpleLogicNode) :
    LogicFormulaBucket :=
  { formula_vector := b.formula_vector ++ [formula]
    minimum_formula :=
      match b.minimum_formula with
      | none => some formula
      | some old_formula =>
          if formula.count_binary_operators < old_formula.count_binary_operators then
            some formula
          else
            some old_formula }

/-! ## truth_table_size_5.rs: `TruthTableSize5Computer` -/

/-- `TruthTableSize5Computer` from truth_table_size_5.rs. -/
structure TruthTableSize5Computer where
  positive_bitmask_vec : List Nat
  negative_bitmask_vec : List Nat

/-- The `for _j in 4..=num_bits` loop of `TruthTableSize5Computer::new`:
starting from `acc`, shift left and or in a 1 bit, `count` times. -/
def onesIter (acc : Nat) : Nat → Nat
  | 0 => acc
  | count + 1 => onesIter ((acc <<< 1) ||| 1) count

/-- The `for _i in 3..=num_booleans` loop of `TruthTableSize5Computer::new`:
duplicate every bitmask into a doubled word and append the new top bitmask;
`count` is the number of booleans beyond 2. -/
def growMasks (vec : List Nat) (num_bits : Nat) : Nat → List Nat
  | 0 => vec
  | count + 1 =>
      growMasks
        (vec.map (fun bitmask => (bitmask <<< num_bits) ||| bitmask)
          ++ [onesIter 0b111 (num_bits - 3) <<< num_bits])
        (num_bits <<< 1) count

/-- `TruthTableSize5Computer::new` from truth_table_size_5.rs; the panic for
`num_booleans = 0` or `num_booleans > 5` is modelled as `none`.  `!x` on a
`u32` is modelled as `2^32 - 1 ^^^ x`. -/
def TruthTableSize5Computer.new (num_booleans : Nat) : Option TruthTableSize5Computer :=
  if num_booleans > 5 ∨ num_booleans = 0 then none
  else
    let two_to_n_minus_1 := 1 <<< (num_booleans - 1)
    let positive_bitmask_vec :=
      if num_booleans = 1 then [0b10]
      else (growMasks [0b1010, 0b1100] 4 (num_booleans - 2)).reverse
    let negative_bitmask_vec :=
      if num_booleans = 1 then [0b01]
      else
        let first_positive_bitmask := positive_bitmask_vec.getD 0 0
        let first_negative_bitmask := first_positive_bitmask >>> two_to_n_minus_1
        let total_bitmask := first_positive_bitmask ||| first_negative_bitmask
        first_negative_bitmask ::
          (positive_bitmask_vec.drop 1).map
            (fun bitmask => ((2 ^ 32 - 1) ^^^ bitmask) &&& total_bitmask)
    some { positive_bitmask_vec := positive_bitmask_vec
           negative_bitmask_vec := negative_bitmask_vec }

mutual

/-- `TruthTableSize5Computer::compute_truth_table` from truth_table_size_5.rs.
Out-of-range literal indices (a panic in Rust, unreachable per its contract)
read a default of 0. -/
def TruthTableSize5Computer.compute_truth_table (t : TruthTableSize5Computer) :
    SimpleLogicNode → Nat
  | .False => 0
  | .True => t.positive_bitmask_vec.getD 0 0 ||| t.negative_bitmask_vec.getD 0 0
  | .Literal lit =>
      let variable_index := get_variable_index lit
      if is_positive_literal lit then t.positive_bitmask_vec.getD (variable_index - 1) 0
      else t.negative_bitmask_vec.getD (variable_index - 1) 0
  | .Conjunction operand_vec => TruthTableSize5Computer.cttFoldAnd t operand_vec (2 ^ 32 - 1)
  | .Disjunction operand_vec => TruthTableSize5Computer.cttFoldOr t operand_vec 0

/-- The `Conjunction` fold of `compute_truth_table`, seeded at `u32::MAX`. -/
def TruthTableSize5Computer.cttFoldAnd (t : TruthTableSize5Computer) :
    List SimpleLogicNode → Nat → Nat
  | [], truth_table => truth_table
  | operand :: rest, truth_table =>
      TruthTableSize5Computer.cttFoldAnd t rest (truth_table &&& t.compute_truth_table operand)

/-- The `Disjunction` fold of `compute_truth_table`, seeded at 0. -/
def TruthTableSize5Computer.cttFoldOr (t : TruthTableSize5Computer) :
    List SimpleLogicNode → Nat → Nat
  | [], truth_table => truth_table
  | operand :: rest, truth_table =>
      TruthTableSize5Computer.cttFoldOr t rest (truth_table ||| t.compute_truth_table operand)

end

/-! ## formula_precomputer.rs: power helpers and the sign-assignment iterator -/

/-- `compute_two_to_n` from formula_precomputer.rs: `1u32 << n`.  A shift by 32
or more overflows the `u32` (a panic in debug builds), modelled as `none`. -/
def compute_two_to_n (n : Nat) : Option Nat :=
  if n < 32 then some (1 <<< n) else none

/-- `compute_two_to_two_to_n` from formula_precomputer.rs: `1u32 << (1u32 << n)`,
which overflows (panics) as soon as `1 << n` reaches 32, i.e. for `n ≥ 5`. -/
def compute_two_to_two_to_n (n : Nat) : Option Nat :=
  if n < 32 then
    if 1 <<< n < 32 then some (1 <<< (1 <<< n)) else none
  else none

/-- `AssignFlagsIterator` from formula_precomputer.rs. -/
structure AssignFlagsIterator where
  boolean_indexes_vec : List Nat
  configuration : Nat
  num_configurations : Nat

/-- `AssignFlagsIterator::new`; fails (`none`) exactly when `compute_two_to_n`
overflows, i.e. for 32 or more indices. -/
def AssignFlagsIterator.new (boolean_indexes_vec : List Nat) : Option AssignFlagsIterator :=
  match compute_two_to_n boolean_indexes_vec.length with
  | none => none
  | some num_configurations =>
      some { boolean_indexes_vec := boolean_indexes_vec
             configuration := 0
             num_configurations := num_configurations }

/-- The literal-building loop in `AssignFlagsIterator::next`: walk the index
vector with a doubling bitmask; a clear configuration bit ors in the
negativity flag. -/
def assignRow (configuration : Nat) : List Nat → Nat → List Nat
  | [], _ => []
  | index :: rest, bitmask =>
      (if configuration &&& bitmask == 0 then index ||| NEGATIVITY_FLAG else index)
        :: assignRow configuration rest (bitmask <<< 1)

/-- `AssignFlagsIterator::next` (the `Iterator` impl). -/
def AssignFlagsIterator.next (s : AssignFlagsIterator) :
    Option (List Nat × AssignFlagsIterator) :=
  if s.configuration ≥ s.num_configurations then none
  else
    some (assignRow s.configuration s.boolean_indexes_vec 1,
          { s with configuration := s.configuration + 1 })

/-- The result of the `c`-th call to `next` (0-indexed) on iterator state `s`. -/
def afiNth (s : AssignFlagsIterator) : Nat → Option (List Nat)
  | 0 => (s.next).map Prod.fst
  | c + 1 =>
      match s.next with
      | none => none
      | some (_, s') => afiNth s' c

/-- All rows a `for` loop over `AssignFlagsIterator::new(v)` collects, in
yield order: configurations 0 to `2^v.length - 1`. -/
def afiAllRows (v : List Nat) : List (List Nat) :=
  (List.range (2 ^ v.length)).map (fun configuration => assignRow configuration v 1)

/-! ## formula_precomputer.rs: the clause universe -/

/-- The inclusive range `a..=b` of Rust `for` loops. -/
def rangeIncl (a b : Nat) : List Nat := List.range' a (b + 1 - a)

/-- The clause-universe construction inlined in
`generate_truth_tables_with_up_to_n_variables` (lines 104-172): singles and
pairs written out literally, triples and quadruples via the iterator.  The
quintuple block reproduces the source exactly: its iterator is built from
`vec![i, j, k, l]` — only four of the five chosen indices. -/
def buildClauseUniverse (n : Nat) : List (List Nat) :=
  ((rangeIncl 1 n).map (fun i => [[i], [i ||| NEGATIVITY_FLAG]])).flatten
  ++ ((rangeIncl 1 n).map (fun i =>
        ((rangeIncl (i + 1) n).map (fun j =>
          [[i, j], [i ||| NEGATIVITY_FLAG, j], [i, j ||| NEGATIVITY_FLAG],
           [i ||| NEGATIVITY_FLAG, j ||| NEGATIVITY_FLAG]])).flatten)).flatten
  ++ ((rangeIncl 1 n).map (fun i =>
        ((rangeIncl (i + 1) n).map (fun j =>
          ((rangeIncl (j + 1) n).map (fun k =>
            afiAllRows [i, j, k])).flatten)).flatten)).flatten
  ++ ((rangeIncl 1 n).map (fun i =>
        ((rangeIncl (i + 1) n).map (fun j =>
          ((rangeIncl (j + 1) n).map (fun k =>
            ((rangeIncl (k + 1) n).map (fun l =>
              afiAllRows [i, j, k, l])).flatten)).flatten)).flatten)).flatten
  ++ ((rangeIncl 1 n).map (fun i =>
        ((rangeIncl (i + 1) n).map (fun j =>
          ((rangeIncl (j + 1) n).map (fun k =>
            ((rangeIncl (k + 1) n).map (fun l =>
              ((rangeIncl (l + 1) n).map (fun _m =>
                afiAllRows [i, j, k, l])).flatten)).flatten)).flatten)).flatten)).flatten

/-! ## formula_precomputer.rs: `NormalFormulaGenerator` -/

/-- The inner `while without_flag > new_array[j] & VARIABLE_INDEX_MASK` loop of
`is_subarray_of`: advance the superarray pointer past smaller indices;
exhausting it means "not a subarray" (`none`). -/
def saAdvance (without_flag : Nat) : List Nat → Option (List Nat)
  | [] => none
  | x :: xs =>
      if without_flag > x &&& VARIABLE_INDEX_MASK then saAdvance without_flag xs
      else some (x :: xs)

/-- The `for i in 0..old_array_length` walk of `is_subarray_of`: each old
element must be found (with identical sign) at the current superarray
position. -/
def saWalk : List Nat → List Nat → Bool
  | [], _ => true
  | o :: os, cur =>
      match saAdvance (o &&& VARIABLE_INDEX_MASK) cur with
      | none => false
      | some [] => false
      | some (y :: rest) => if o == y then saWalk os (y :: rest) else false

/-- `NormalFormulaGenerator::is_subarray_of` from formula_precomputer.rs. -/
def is_subarray_of (old_array new_array : List Nat) : Bool :=
  if old_array.length == new_array.length then false
  else saWalk old_array new_array

mutual

/-- `NormalFormulaGenerator::generate_cnf_from_dnf`: swap every conjunction
for a disjunction and vice versa; panics (modelled `none`) on the constants. -/
def generate_cnf_from_dnf : SimpleLogicNode → Option SimpleLogicNode
  | .False => none
  | .True => none
  | .Literal l => some (.Literal l)
  | .Conjunction operands =>
      match flipOperands operands with
      | none => none
      | some flipped_operands => some (.Disjunction flipped_operands)
  | .Disjunction operands =>
      match flipOperands operands with
      | none => none
      | some flipped_operands => some (.Conjunction flipped_operands)

/-- The `for operand in operands` recursion of `generate_cnf_from_dnf`. -/
def flipOperands : List SimpleLogicNode → Option (List SimpleLogicNode)
  | [] => some []
  | o :: rest =>
      match generate_cnf_from_dnf o with
      | none => none
      | some o' =>
          match flipOperands rest with
          | none => none
          | some rest' => some (o' :: rest')

end

/-- Lines 316-330 of formula_precomputer.rs: a clause becomes its bare literal
when it is a singleton, else a `Conjunction` of its literals. -/
def clauseToNode (clause : List Nat) : SimpleLogicNode :=
  match clause with
  | [l] => .Literal l
  | _ => .Conjunction (clause.map .Literal)

/-- `NormalFormulaGenerator::add_formula_to_buckets`: compute the truth table
and add the formula to the bucket at that index; an out-of-bounds index
(a panic in Rust) is `none`. -/
def add_formula_to_buckets (ttc : TruthTableSize5Computer)
    (formula_buckets : List LogicFormulaBucket) (formula : SimpleLogicNode) :
    Option (List LogicFormulaBucket) :=
  let truth_table := ttc.compute_truth_table formula
  if h : truth_table < formula_buckets.length then
    some (formula_buckets.set truth_table
      ((formula_buckets.get ⟨truth_table, h⟩).add_formula formula))
  else none

/-- Lines 311-354 of `generate_all_normal_formulas_with_prefix`: turn the
extended clause list into formulas and register them.  A single clause is
registered only when it is a bare literal; otherwise the structural CNF dual
is registered first, then the DNF itself. -/
def registerStep (ttc : TruthTableSize5Computer) (formula_buckets : List LogicFormulaBucket)
    (current_clauses : List (List Nat)) : Option (List LogicFormulaBucket) :=
  let current_conjunctions := current_clauses.map clauseToNode
  match current_conjunctions with
  | [single_conjunction] =>
      match single_conjunction with
      | .Literal _ => add_formula_to_buckets ttc formula_buckets single_conjunction
      | _ => some formula_buckets
  | _ =>
      let dnf_formula := SimpleLogicNode.Disjunction current_conjunctions
      match generate_cnf_from_dnf dnf_formula with
      | none => none
      | some cnf_formula =>
          match add_formula_to_buckets ttc formula_buckets cnf_formula with
          | none => none
          | some bs1 => add_formula_to_buckets ttc bs1 dnf_formula

/-- The pruning checks at lines 293-309 of
`generate_all_normal_formulas_with_prefix`: a unit clause is dropped when some
prefix clause is its opposite unit; a larger clause is dropped when some
prefix clause is a subarray of it. -/
def pruneCheck (prefix_clauses : List (List Nat)) (new_clause : List Nat) : Bool :=
  if new_clause.length == 1 then
    prefix_clauses.any
      (fun current_clause => current_clause.getD 0 0 ^^^ new_clause.getD 0 0 == NEGATIVITY_FLAG)
  else
    prefix_clauses.any (fun current_clause => is_subarray_of current_clause new_clause)

/-- The combined recursion of `generate_all_normal_formulas` and
`generate_all_normal_formulas_with_prefix`, linearised over the list of
clause indices still to be considered.  For each index `i` in turn (the
source's `for` loops over `clause_to_add_index+1..num` and the outer
`0..num`): run the pruning checks; when they pass, register the formulas for
`prefix ++ [clause i]` and recurse over the remaining indices with the
extended prefix; in every case continue with the remaining indices and the
unextended prefix. -/
def genFrom (ttc : TruthTableSize5Computer) (cfgs : List (List Nat))
    (formula_buckets : List LogicFormulaBucket) (prefix_clauses : List (List Nat)) :
    List Nat → Option (List LogicFormulaBucket)
  | [] => some formula_buckets
  | i :: rest =>
      let new_clause := cfgs.getD i []
      if pruneCheck prefix_clauses new_clause then
        genFrom ttc cfgs formula_buckets prefix_clauses rest
      else
        match registerStep ttc formula_buckets (prefix_clauses ++ [new_clause]) with
        | none => none
        | some bs' =>
            match genFrom ttc cfgs bs' (prefix_clauses ++ [new_clause]) rest with
            | none => none
            | some bs'' => genFrom ttc cfgs bs'' prefix_clauses rest

/-- Lines 83-92 of formula_precomputer.rs: `num_truth_tables` empty buckets,
bucket 0 seeded with the constant `False` formula and the last bucket with
the constant `True` formula. -/
def seedBuckets (num_truth_tables : Nat) : List LogicFormulaBucket :=
  let bs0 := List.replicate num_truth_tables emptyBucket
  let bs1 := bs0.set 0 ((bs0.getD 0 emptyBucket).add_formula .False)
  bs1.set (num_truth_tables - 1)
    ((bs1.getD (num_truth_tables - 1) emptyBucket).add_formula .True)

/-- `generate_truth_tables_with_up_to_n_variables` from formula_precomputer.rs:
panic on `n < 1` (`none`), allocate `2^(2^n)` empty buckets (`none` when that
`u32` computation overflows, i.e. for `n ≥ 5`), seed bucket 0 with `False` and
the last bucket with `True`, build the clause universe and run the generator. -/
def generate_truth_tables_with_up_to_n_variables (n : Nat) :
    Option (List LogicFormulaBucket) :=
  if n < 1 then none
  else
    match compute_two_to_n n with
    | none => none
    | some _two_to_n =>
        match compute_two_to_two_to_n n with
        | none => none
        | some num_truth_tables =>
            let cfgs := buildClauseUniverse n
            match TruthTableSize5Computer.new n with
            | none => none
            | some ttc =>
                genFrom ttc cfgs (seedBuckets num_truth_tables) [] (List.range cfgs.length)

/-! ## Specification-side definitions

The definitions below are written from the specification's words (truth-table
semantics, clause validity, subsumption, the bucket invariants); they are the
yardsticks the source-translated definitions above are measured against. -/

mutual

/-- Spec-side semantics: evaluate a formula under an assignment `σ` of truth
values to variable indices. -/
def evalFormula (σ : Nat → Bool) : SimpleLogicNode → Bool
  | .False => false
  | .True => true
  | .Literal lit =>
      if is_positive_literal lit then σ (get_variable_index lit)
      else !(σ (get_variable_index lit))
  | .Conjunction ops => evalAll σ ops
  | .Disjunction ops => evalAny σ ops

/-- A conjunction is true when all children are. -/
def evalAll (σ : Nat → Bool) : List SimpleLogicNode → Bool
  | [] => true
  | o :: rest => evalFormula σ o && evalAll σ rest

/-- A disjunction is true when some child is. -/
def evalAny (σ : Nat → Bool) : List SimpleLogicNode → Bool
  | [] => false
  | o :: rest => evalFormula σ o || evalAny σ rest

end

/-- A valid `u32` literal over variables `1..=n`. -/
def ValidLit (n l : Nat) : Prop :=
  1 ≤ get_variable_index l ∧ get_variable_index l ≤ n ∧ l < 2 ^ 32

instance (n l : Nat) : Decidable (ValidLit n l) :=
  inferInstanceAs (Decidable (_ ∧ _ ∧ _))

mutual

/-- Every literal of the formula references a variable index in `1..=n`. -/
def formulaLitsValid (n : Nat) : SimpleLogicNode → Bool
  | .False => true
  | .True => true
  | .Literal lit => decide (ValidLit n lit)
  | .Conjunction ops => litsValidList n ops
  | .Disjunction ops => litsValidList n ops

/-- All formulas in the list have valid literals. -/
def litsValidList (n : Nat) : List SimpleLogicNode → Bool
  | [] => true
  | o :: rest => formulaLitsValid n o && litsValidList n rest

end

/-- A nonempty clause of valid literals. -/
def ValidClause (n : Nat) (c : List Nat) : Prop :=
  c ≠ [] ∧ ∀ l ∈ c, ValidLit n l

instance (n : Nat) (c : List Nat) : Decidable (ValidClause n c) :=
  inferInstanceAs (Decidable (_ ∧ _))

/-- Clause `a` subsumes clause `b`: `a` is strictly shorter and all its
literals occur, with matching signs, in `b`. -/
def signedSubsumes (a b : List Nat) : Prop :=
  a.length < b.length ∧ ∀ l ∈ a, l ∈ b

instance (a b : List Nat) : Decidable (signedSubsumes a b) :=
  inferInstanceAs (Decidable (_ ∧ _))

/-- Two unit clauses holding the same variable with opposite signs. -/
def unitOpposite (a b : List Nat) : Prop :=
  a.length = 1 ∧ b.length = 1 ∧ a.getD 0 0 ^^^ b.getD 0 0 = NEGATIVITY_FLAG

instance (a b : List Nat) : Decidable (unitOpposite a b) :=
  inferInstanceAs (Decidable (_ ∧ _ ∧ _))

/-- Two clauses that may appear side by side in a generated formula: neither
subsumes the other and they are not an opposite unit pair. -/
def ClauseCompat (a b : List Nat) : Prop :=
  ¬signedSubsumes a b ∧ ¬signedSubsumes b a ∧ ¬unitOpposite a b

instance (a b : List Nat) : Decidable (ClauseCompat a b) :=
  inferInstanceAs (Decidable (_ ∧ _ ∧ _))

/-- The structural dual of `clauseToNode`: what `generate_cnf_from_dnf` turns
a DNF clause into. -/
def dualClauseToNode (clause : List Nat) : SimpleLogicNode :=
  match clause with
  | [l] => .Literal l
  | _ => .Disjunction (clause.map .Literal)

/-- Shape of every formula the generator files into a bucket: one of the two
seeded constants, a bare valid literal, or a multi-clause DNF
(disjunction of clause nodes) or its structural CNF dual, built from at least
two pairwise compatible valid clauses. -/
def RegOK (n : Nat) (f : SimpleLogicNode) : Prop :=
  f = .False ∨ f = .True ∨
  (∃ l, ValidLit n l ∧ f = .Literal l) ∨
  (∃ cs : List (List Nat), 2 ≤ cs.length ∧ (∀ c ∈ cs, ValidClause n c) ∧
    cs.Pairwise ClauseCompat ∧
    (f = .Disjunction (cs.map clauseToNode) ∨ f = .Conjunction (cs.map dualClauseToNode)))

/-- Bucket-collection invariant: there are `L` buckets and every formula
stored in bucket `i` has shape `RegOK` and truth table exactly `i`. -/
def BucketsInv (n L : Nat) (t : TruthTableSize5Computer)
    (bs : List LogicFormulaBucket) : Prop :=
  bs.length = L ∧
  ∀ i : Nat, ∀ f ∈ (bs.getD i emptyBucket).formula_vector,
    RegOK n f ∧ t.compute_truth_table f = i

/-- Prefix invariant of the generator recursion: every prefix clause comes
from the universe, is valid, and is no longer than any clause still to be
considered; the prefix clauses are pairwise compatible. -/
def PrefixOK (n : Nat) (cfgs pre : List (List Nat)) (rest : List Nat) : Prop :=
  (∀ c ∈ pre, c ∈ cfgs ∧ ValidClause n c ∧
    ∀ j ∈ rest, c.length ≤ (cfgs.getD j []).length) ∧
  pre.Pairwise ClauseCompat

/-- Well-formedness of the remaining index list: strictly increasing and in
bounds for the universe. -/
def RestOK (cfgs : List (List Nat)) (rest : List Nat) : Prop :=
  rest.Pairwise (· < ·) ∧ ∀ j ∈ rest, j < cfgs.length

/-- Universe hypotheses the master lemma needs: all clauses valid, the
subsumption check complete on universe clauses, and clause lengths
monotone in universe position. -/
def CfgsOK (n : Nat) (cfgs : List (List Nat)) : Prop :=
  (∀ c ∈ cfgs, ValidClause n c) ∧
  (∀ a ∈ cfgs, ∀ b ∈ cfgs, signedSubsumes a b → is_subarray_of a b = true) ∧
  (∀ j, j < cfgs.length → ∀ i, i ≤ j →
    (cfgs.getD i []).length ≤ (cfgs.getD j []).length)

/-- Per-variable truth-table masks lie below the number of truth tables. -/
def MasksLt (n L : Nat) (t : TruthTableSize5Computer) : Prop :=
  ∀ v, v < n →
    t.positive_bitmask_vec.getD v 0 < L ∧ t.negative_bitmask_vec.getD v 0 < L

/-- Bit-level specification of the masks built by
`TruthTableSize5Computer::new`: bit `b` of the mask of variable `v+1` is the
value of that variable in the assignment encoded by `b`, the first variable
sitting in the most significant of the `n` encoding bits. -/
def MaskSpec (n : Nat) (t : TruthTableSize5Computer) : Prop :=
  ∀ v, v < n → ∀ b, b < 2 ^ n →
    (t.positive_bitmask_vec.getD v 0).testBit b = b.testBit (n - 1 - v) ∧
    (t.negative_bitmask_vec.getD v 0).testBit b = !(b.testBit (n - 1 - v))

/-- All valid bits of `positive[0] ||| negative[0]` (the truth table of
`True`) are set. -/
def TrueAllOnes (n : Nat) (t : TruthTableSize5Computer) : Prop :=
  ∀ b, b < 2 ^ n →
    (t.positive_bitmask_vec.getD 0 0 ||| t.negative_bitmask_vec.getD 0 0).testBit b = true

mutual

/-- The formula is built only from `Literal`, `Conjunction` and `Disjunction`
nodes (no `False`/`True` constants). -/
def noConstants : SimpleLogicNode → Bool
  | .False => false
  | .True => false
  | .Literal _ => true
  | .Conjunction ops => noConstantsList ops
  | .Disjunction ops => noConstantsList ops

/-- All formulas in the list are constant-free. -/
def noConstantsList : List SimpleLogicNode → Bool
  | [] => true
  | o :: rest => noConstants o && noConstantsList rest

end

/-! ## Helper lemmas -/

theorem evalAll_eq_all (σ : Nat → Bool) (ops : List SimpleLogicNode) :
    evalAll σ ops = ops.all (evalFormula σ) := by
  induction ops with
  | nil => rfl
  | cons o rest ih => simp [evalAll, ih]

theorem evalAny_eq_any (σ : Nat → Bool) (ops : List SimpleLogicNode) :
    evalAny σ ops = ops.any (evalFormula σ) := by
  induction ops with
  | nil => rfl
  | cons o rest ih => simp [evalAny, ih]

theorem litsValidList_iff (n : Nat) (ops : List SimpleLogicNode) :
    litsValidList n ops = true ↔ ∀ o ∈ ops, formulaLitsValid n o = true := by
  induction ops with
  | nil => simp [litsValidList]
  | cons o rest ih => simp [litsValidList, ih]

theorem all_congrB {α : Type} (l : List α) (f g : α → Bool)
    (h : ∀ a ∈ l, f a = g a) : l.all f = l.all g := by
  induction l with
  | nil => rfl
  | cons x xs ih =>
      simp only [List.all_cons, h x (by simp)]
      rw [ih (fun a ha => h a (by simp [ha]))]

theorem any_congrB {α : Type} (l : List α) (f g : α → Bool)
    (h : ∀ a ∈ l, f a = g a) : l.any f = l.any g := by
  induction l with
  | nil => rfl
  | cons x xs ih =>
      simp only [List.any_cons, h x (by simp)]
      rw [ih (fun a ha => h a (by simp [ha]))]

theorem testBit_cttFoldAnd (t : TruthTableSize5Computer) (b : Nat)
    (ops : List SimpleLogicNode) : ∀ acc : Nat,
    (TruthTableSize5Computer.cttFoldAnd t ops acc).testBit b
      = (acc.testBit b && ops.all (fun o => (t.compute_truth_table o).testBit b)) := by
  induction ops with
  | nil => intro acc; simp [TruthTableSize5Computer.cttFoldAnd]
  | cons o rest ih =>
      intro acc
      simp [TruthTableSize5Computer.cttFoldAnd, ih, Nat.testBit_land, Bool.and_assoc]

theorem testBit_cttFoldOr (t : TruthTableSize5Computer) (b : Nat)
    (ops : List SimpleLogicNode) : ∀ acc : Nat,
    (TruthTableSize5Computer.cttFoldOr t ops acc).testBit b
      = (acc.testBit b || ops.any (fun o => (t.compute_truth_table o).testBit b)) := by
  induction ops with
  | nil => intro acc; simp [TruthTableSize5Computer.cttFoldOr]
  | cons o rest ih =>
      intro acc
      simp [TruthTableSize5Computer.cttFoldOr, ih, Nat.testBit_lor, Bool.or_assoc]

theorem ctt_testBit_eval (n : Nat) (t : TruthTableSize5Computer)
    (hmask : MaskSpec n t) (htrue : TrueAllOnes n t) (hn5 : n ≤ 5) :
    ∀ (k : Nat) (f : SimpleLogicNode), sizeOf f ≤ k → formulaLitsValid n f = true →
      ∀ b, b < 2 ^ n →
        (t.compute_truth_table f).testBit b
          = evalFormula (fun i => b.testBit (n - i)) f := by
  intro k
  induction k with
  | zero => intro f hf; exfalso; cases f <;> simp_arith at hf
  | succ k ih =>
    intro f hsize hvalid b hb
    have hb32 : b < 32 := by
      have h32 : (2 : Nat) ^ n ≤ 2 ^ 5 := Nat.pow_le_pow_right (by norm_num) hn5
      omega
    cases f with
    | False =>
        simp [TruthTableSize5Computer.compute_truth_table, evalFormula, Nat.zero_testBit]
    | True =>
        simpa [TruthTableSize5Computer.compute_truth_table, evalFormula] using htrue b hb
    | Literal lit =>
        have hv : ValidLit n lit := by
          simpa [formulaLitsValid] using hvalid
        obtain ⟨h1, h2, _⟩ := hv
        have hvn : get_variable_index lit - 1 < n := by omega
        have hms := hmask (get_variable_index lit - 1) hvn b hb
        have hidx : n - 1 - (get_variable_index lit - 1) = n - get_variable_index lit := by
          omega
        rw [hidx] at hms
        simp only [List.getD_eq_getElem?_getD] at hms
        by_cases hp : is_positive_literal lit
        · simp [TruthTableSize5Computer.compute_truth_table, evalFormula, hp, hms.1]
        · simp [TruthTableSize5Computer.compute_truth_table, evalFormula, hp, hms.2]
    | Conjunction ops =>
        have hszops : sizeOf ops < sizeOf (SimpleLogicNode.Conjunction ops) := by
          simp
        have hmem : ∀ o ∈ ops,
            (t.compute_truth_table o).testBit b
              = evalFormula (fun i => b.testBit (n - i)) o := by
          intro o ho
          have hso := List.sizeOf_lt_of_mem ho
          exact ih o (by omega)
            ((litsValidList_iff n ops).1 (by simpa [formulaLitsValid] using hvalid) o ho) b hb
        have hmax : (2 ^ 32 - 1 : Nat).testBit b = true := by
          rw [Nat.testBit_two_pow_sub_one]; simpa using hb32
        rw [show t.compute_truth_table (.Conjunction ops)
              = TruthTableSize5Computer.cttFoldAnd t ops (2 ^ 32 - 1) from rfl,
            testBit_cttFoldAnd, hmax, Bool.true_and,
            show evalFormula (fun i => b.testBit (n - i)) (.Conjunction ops)
              = evalAll (fun i => b.testBit (n - i)) ops from rfl,
            evalAll_eq_all]
        exact all_congrB ops _ _ hmem
    | Disjunction ops =>
        have hszops : sizeOf ops < sizeOf (SimpleLogicNode.Disjunction ops) := by
          simp
        have hmem : ∀ o ∈ ops,
            (t.compute_truth_table o).testBit b
              = evalFormula (fun i => b.testBit (n - i)) o := by
          intro o ho
          have hso := List.sizeOf_lt_of_mem ho
          exact ih o (by omega)
            ((litsValidList_iff n ops).1 (by simpa [formulaLitsValid] using hvalid) o ho) b hb
        rw [show t.compute_truth_table (.Disjunction ops)
              = TruthTableSize5Computer.cttFoldOr t ops 0 from rfl,
            testBit_cttFoldOr, Nat.zero_testBit, Bool.false_or,
            show evalFormula (fun i => b.testBit (n - i)) (.Disjunction ops)
              = evalAny (fun i => b.testBit (n - i)) ops from rfl,
            evalAny_eq_any]
        exact any_congrB ops _ _ hmem

/-- C3: for every `n` in `1..=5`, every formula over variables `1..=n` and
every assignment number `b < 2^n`, bit `b` of the computed truth table on a
`TruthTableSize5Computer` built by `new(n)` is 1 exactly when the formula
evaluates to true under the assignment encoded by `b`'s bit pattern, variable
1 being mapped to the most significant of the `n` encoding bits (variable `i`
reads bit `n - i` of `b`).  In particular `False` yields 0, `True` all valid
bits, `Conjunction` an AND fold and `Disjunction` an OR fold. -/
theorem truth_table_bit_iff_eval (n : Nat) (h1 : 1 ≤ n) (h5 : n ≤ 5)
    (t : TruthTableSize5Computer) (hnew : TruthTableSize5Computer.new n = some t)
    (f : SimpleLogicNode) (hf : formulaLitsValid n f = true)
    (b : Nat) (hb : b < 2 ^ n) :
    (t.compute_truth_table f).testBit b = evalFormula (fun i => b.testBit (n - i)) f := by
  have happly : MaskSpec n t → TrueAllOnes n t →
      (t.compute_truth_table f).testBit b = evalFormula (fun i => b.testBit (n - i)) f :=
    fun hm ht => ctt_testBit_eval n t hm ht h5 (sizeOf f) f le_rfl hf b hb
  interval_cases n
  · rw [show TruthTableSize5Computer.new 1 = some ⟨[2], [1]⟩ from rfl,
        Option.some.injEq] at hnew
    subst hnew
    exact happly (by unfold MaskSpec; decide) (by unfold TrueAllOnes; decide)
  · rw [show TruthTableSize5Computer.new 2 = some ⟨[12, 10], [3, 5]⟩ from rfl,
        Option.some.injEq] at hnew
    subst hnew
    exact happly (by unfold MaskSpec; decide) (by unfold TrueAllOnes; decide)
  · rw [show TruthTableSize5Computer.new 3 = some ⟨[240, 204, 170], [15, 51, 85]⟩ from rfl,
        Option.some.injEq] at hnew
    subst hnew
    exact happly (by unfold MaskSpec; decide) (by unfold TrueAllOnes; decide)
  · rw [show TruthTableSize5Computer.new 4
          = some ⟨[65280, 61680, 52428, 43690], [255, 3855, 13107, 21845]⟩ from rfl,
        Option.some.injEq] at hnew
    subst hnew
    exact happly (by unfold MaskSpec; decide) (by unfold TrueAllOnes; decide)
  · rw [show TruthTableSize5Computer.new 5
          = some ⟨[4294901760, 4278255360, 4042322160, 3435973836, 2863311530],
                  [65535, 16711935, 252645135, 858993459, 1431655765]⟩ from rfl,
        Option.some.injEq] at hnew
    subst hnew
    exact happly (by unfold MaskSpec; decide) (by unfold TrueAllOnes; decide)

/-- Witness for C3: instantiated at `n = 2`, the formula `p1` and assignment
number `b = 2` (where `p1` is true and `p2` false). -/
theorem truth_table_bit_iff_eval_witness :
    (1 ≤ 2 ∧ 2 ≤ 5) ∧
    TruthTableSize5Computer.new 2 = some ⟨[12, 10], [3, 5]⟩ ∧
    formulaLitsValid 2 (.Literal 1) = true ∧ (2 : Nat) < 2 ^ 2 ∧
    ((⟨[12, 10], [3, 5]⟩ :
        TruthTableSize5Computer).compute_truth_table (.Literal 1)).testBit 2
      = evalFormula (fun i => Nat.testBit 2 (2 - i)) (.Literal 1) :=
  ⟨⟨by decide, by decide⟩, rfl, by decide, by decide,
    truth_table_bit_iff_eval 2 (by decide) (by decide) _ rfl _ (by decide) 2 (by decide)⟩

theorem noConstantsList_iff (ops : List SimpleLogicNode) :
    noConstantsList ops = true ↔ ∀ o ∈ ops, noConstants o = true := by
  induction ops with
  | nil => simp [noConstantsList]
  | cons o rest ih => simp [noConstantsList, ih]

theorem flipOperands_roundtrip (ops : List SimpleLogicNode)
    (h : ∀ o ∈ ops, ∃ g, generate_cnf_from_dnf o = some g ∧ noConstants g = true ∧
      generate_cnf_from_dnf g = some o) :
    ∃ ops', flipOperands ops = some ops' ∧ (∀ o' ∈ ops', noConstants o' = true) ∧
      flipOperands ops' = some ops := by
  induction ops with
  | nil => exact ⟨[], rfl, by simp, rfl⟩
  | cons o rest ih =>
      obtain ⟨g, hg1, hg2, hg3⟩ := h o (by simp)
      obtain ⟨rest', hr1, hr2, hr3⟩ := ih (fun o' ho' => h o' (by simp [ho']))
      refine ⟨g :: rest', ?_, ?_, ?_⟩
      · simp [flipOperands, hg1, hr1]
      · intro o' ho'
        rcases List.mem_cons.1 ho' with h' | h'
        · exact h' ▸ hg2
        · exact hr2 o' h'
      · simp [flipOperands, hg3, hr3]

theorem cnf_from_dnf_roundtrip :
    ∀ (k : Nat) (f : SimpleLogicNode), sizeOf f ≤ k → noConstants f = true →
      ∃ g, generate_cnf_from_dnf f = some g ∧ noConstants g = true ∧
        generate_cnf_from_dnf g = some f := by
  intro k
  induction k with
  | zero => intro f hf; exfalso; cases f <;> simp_arith at hf
  | succ k ih =>
    intro f hsize hnc
    cases f with
    | False => simp [noConstants] at hnc
    | True => simp [noConstants] at hnc
    | Literal l => exact ⟨.Literal l, rfl, rfl, rfl⟩
    | Conjunction ops =>
        have hszops : sizeOf ops < sizeOf (SimpleLogicNode.Conjunction ops) := by simp
        have helem : ∀ o ∈ ops, ∃ g, generate_cnf_from_dnf o = some g ∧
            noConstants g = true ∧ generate_cnf_from_dnf g = some o := by
          intro o ho
          have hso := List.sizeOf_lt_of_mem ho
          exact ih o (by omega)
            ((noConstantsList_iff ops).1 (by simpa [noConstants] using hnc) o ho)
        obtain ⟨ops', h1, h2, h3⟩ := flipOperands_roundtrip ops helem
        refine ⟨.Disjunction ops', ?_, ?_, ?_⟩
        · simp [generate_cnf_from_dnf, h1]
        · simpa [noConstants, noConstantsList_iff] using h2
        · simp [generate_cnf_from_dnf, h3]
    | Disjunction ops =>
        have hszops : sizeOf ops < sizeOf (SimpleLogicNode.Disjunction ops) := by simp
        have helem : ∀ o ∈ ops, ∃ g, generate_cnf_from_dnf o = some g ∧
            noConstants g = true ∧ generate_cnf_from_dnf g = some o := by
          intro o ho
          have hso := List.sizeOf_lt_of_mem ho
          exact ih o (by omega)
            ((noConstantsList_iff ops).1 (by simpa [noConstants] using hnc) o ho)
        obtain ⟨ops', h1, h2, h3⟩ := flipOperands_roundtrip ops helem
        refine ⟨.Conjunction ops', ?_, ?_, ?_⟩
        · simp [generate_cnf_from_dnf, h1]
        · simpa [noConstants, noConstantsList_iff] using h2
        · simp [generate_cnf_from_dnf, h3]

/-- C8: on formulas built only from `Literal`, `Conjunction` and `Disjunction`
nodes, applying `generate_cnf_from_dnf` twice gives back a formula structurally
equal to the original. -/
theorem cnf_from_dnf_involution (f : SimpleLogicNode) (hf : noConstants f = true) :
    (generate_cnf_from_dnf f).bind generate_cnf_from_dnf = some f := by
  obtain ⟨g, hg1, _, hg3⟩ := cnf_from_dnf_roundtrip (sizeOf f) f le_rfl hf
  rw [hg1]
  simpa using hg3

/-- Witness for C8: the dual of the dual of `p1 ∨ (p2 ∧ ¬p3)` is itself. -/
theorem cnf_from_dnf_involution_witness :
    noConstants
      (.Disjunction [.Literal 1, .Conjunction [.Literal 2, .Literal (3 ||| NEGATIVITY_FLAG)]])
      = true ∧
    (generate_cnf_from_dnf
        (.Disjunction [.Literal 1,
          .Conjunction [.Literal 2, .Literal (3 ||| NEGATIVITY_FLAG)]])).bind
        generate_cnf_from_dnf
      = some (.Disjunction [.Literal 1,
          .Conjunction [.Literal 2, .Literal (3 ||| NEGATIVITY_FLAG)]]) :=
  ⟨by decide,
    cnf_from_dnf_involution
      (.Disjunction [.Literal 1, .Conjunction [.Literal 2, .Literal (3 ||| NEGATIVITY_FLAG)]])
      (by decide)⟩

theorem add_formula_min_invariant (b : LogicFormulaBucket)
    (hinv : (b.formula_vector = [] ∧ b.minimum_formula = none) ∨
      (∃ m pre suf, b.minimum_formula = some m ∧ b.formula_vector = pre ++ m :: suf ∧
        (∀ f ∈ b.formula_vector,
          m.count_binary_operators ≤ f.count_binary_operators) ∧
        (∀ f ∈ pre, m.count_binary_operators < f.count_binary_operators)))
    (g : SimpleLogicNode) :
    (b.add_formula g).formula_vector = [] ∧ (b.add_formula g).minimum_formula = none ∨
      (∃ m pre suf, (b.add_formula g).minimum_formula = some m ∧
        (b.add_formula g).formula_vector = pre ++ m :: suf ∧
        (∀ f ∈ (b.add_formula g).formula_vector,
          m.count_binary_operators ≤ f.count_binary_operators) ∧
        (∀ f ∈ pre, m.count_binary_operators < f.count_binary_operators)) := by
  right
  rcases hinv with ⟨hv, hm⟩ | ⟨m, pre, suf, hm, hv, hle, hlt⟩
  · refine ⟨g, [], [], ?_, ?_, ?_, ?_⟩
    · simp [LogicFormulaBucket.add_formula, hm]
    · simp [LogicFormulaBucket.add_formula, hv]
    · intro f hf
      simp [LogicFormulaBucket.add_formula, hv] at hf
      simp [hf]
    · simp
  · by_cases hcmp :
      g.count_binary_operators < m.count_binary_operators
    · refine ⟨g, b.formula_vector, [], ?_, ?_, ?_, ?_⟩
      · simp [LogicFormulaBucket.add_formula, hm, hcmp]
      · simp [LogicFormulaBucket.add_formula]
      · intro f hf
        simp [LogicFormulaBucket.add_formula] at hf
        rcases hf with hf | hf
        · exact le_of_lt (lt_of_lt_of_le hcmp (hle f hf))
        · simp [hf]
      · intro f hf
        exact lt_of_lt_of_le hcmp (hle f hf)
    · refine ⟨m, pre, suf ++ [g], ?_, ?_, ?_, ?_⟩
      · simp [LogicFormulaBucket.add_formula, hm, hcmp]
      · simp [LogicFormulaBucket.add_formula, hv]
      · intro f hf
        simp [LogicFormulaBucket.add_formula] at hf
        rcases hf with hf | hf
        · exact hle f hf
        · subst hf; omega
      · exact hlt
  
theorem foldl_add_formula_min_invariant (fs : List SimpleLogicNode) : ∀ b : LogicFormulaBucket,
    ((b.formula_vector = [] ∧ b.minimum_formula = none) ∨
      (∃ m pre suf, b.minimum_formula = some m ∧ b.formula_vector = pre ++ m :: suf ∧
        (∀ f ∈ b.formula_vector,
          m.count_binary_operators ≤ f.count_binary_operators) ∧
        (∀ f ∈ pre, m.count_binary_operators < f.count_binary_operators))) →
    (((fs.foldl LogicFormulaBucket.add_formula b).formula_vector = [] ∧
        (fs.foldl LogicFormulaBucket.add_formula b).minimum_formula = none) ∨
      (∃ m pre suf, (fs.foldl LogicFormulaBucket.add_formula b).minimum_formula = some m ∧
        (fs.foldl LogicFormulaBucket.add_formula b).formula_vector = pre ++ m :: suf ∧
        (∀ f ∈ (fs.foldl LogicFormulaBucket.add_formula b).formula_vector,
          m.count_binary_operators ≤ f.count_binary_operators) ∧
        (∀ f ∈ pre, m.count_binary_operators < f.count_binary_operators))) := by
  induction fs with
  | nil => intro b hb; exact hb
  | cons g rest ih =>
      intro b hb
      exact ih (b.add_formula g) (add_formula_min_invariant b hb g)

/-- C5: after any sequence of `add_formula` calls on an initially empty bucket,
a non-empty formula list implies the minimum formula is present, has operator
count at most that of every stored formula, and is the first stored formula
achieving that count (every earlier formula counts strictly more, so ties keep
the formula seen first). -/
theorem bucket_minimum_invariant (fs : List SimpleLogicNode)
    (hne : (fs.foldl LogicFormulaBucket.add_formula emptyBucket).formula_vector ≠ []) :
    ∃ m pre suf,
      (fs.foldl LogicFormulaBucket.add_formula emptyBucket).minimum_formula = some m ∧
      m ∈ (fs.foldl LogicFormulaBucket.add_formula emptyBucket).formula_vector ∧
      (∀ f ∈ (fs.foldl LogicFormulaBucket.add_formula emptyBucket).formula_vector,
        m.count_binary_operators ≤ f.count_binary_operators) ∧
      (fs.foldl LogicFormulaBucket.add_formula emptyBucket).formula_vector
        = pre ++ m :: suf ∧
      (∀ f ∈ pre, m.count_binary_operators < f.count_binary_operators) := by
  rcases foldl_add_formula_min_invariant fs emptyBucket (Or.inl ⟨rfl, rfl⟩) with
    ⟨hv, _⟩ | ⟨m, pre, suf, hm, hv, hle, hlt⟩
  · exact absurd hv hne
  · exact ⟨m, pre, suf, hm, by rw [hv]; simp, hle, hv, hlt⟩

/-- Witness for C5: two formulas with equal operator count 0; the first stays
the minimum. -/
theorem bucket_minimum_invariant_witness :
    (([SimpleLogicNode.Literal 1, SimpleLogicNode.Literal 2].foldl
        LogicFormulaBucket.add_formula emptyBucket).formula_vector ≠ []) ∧
    ∃ m pre suf,
      (([SimpleLogicNode.Literal 1, SimpleLogicNode.Literal 2].foldl
          LogicFormulaBucket.add_formula emptyBucket)).minimum_formula = some m ∧
      m ∈ (([SimpleLogicNode.Literal 1, SimpleLogicNode.Literal 2].foldl
          LogicFormulaBucket.add_formula emptyBucket)).formula_vector ∧
      (∀ f ∈ (([SimpleLogicNode.Literal 1, SimpleLogicNode.Literal 2].foldl
          LogicFormulaBucket.add_formula emptyBucket)).formula_vector,
        m.count_binary_operators ≤ f.count_binary_operators) ∧
      (([SimpleLogicNode.Literal 1, SimpleLogicNode.Literal 2].foldl
          LogicFormulaBucket.add_formula emptyBucket)).formula_vector
        = pre ++ m :: suf ∧
      (∀ f ∈ pre, m.count_binary_operators < f.count_binary_operators) :=
  ⟨by decide,
    bucket_minimum_invariant [SimpleLogicNode.Literal 1, SimpleLogicNode.Literal 2]
      (by decide)⟩

theorem assignRow_length (c : Nat) : ∀ (v : List Nat) (m : Nat),
    (assignRow c v m).length = v.length := by
  intro v
  induction v with
  | nil => intro m; rfl
  | cons x xs ih => intro m; simp [assignRow, ih]

theorem assignRow_getD (c : Nat) : ∀ (v : List Nat) (s i : Nat), i < v.length →
    (assignRow c v (2 ^ s)).getD i 0
      = (if c.testBit (s + i) then v.getD i 0 else v.getD i 0 ||| NEGATIVITY_FLAG) := by
  intro v
  induction v with
  | nil => intro s i hi; simp at hi
  | cons x xs ih =>
      intro s i hi
      have hand : (c &&& 2 ^ s == 0) = !c.testBit s := by
        rw [Nat.and_two_pow]
        cases h : c.testBit s <;> simp [h]
      cases i with
      | zero =>
          simp only [assignRow, hand, List.getD]
          cases h : c.testBit s <;> simp [h]
      | succ j =>
          have hstep : (2 : Nat) ^ s <<< 1 = 2 ^ (s + 1) := by
            rw [Nat.shiftLeft_eq]; ring
          simp only [assignRow, hstep, List.getD_cons_succ]
          rw [ih (s + 1) j (by simpa using hi)]
          have harith : s + 1 + j = s + (j + 1) := by omega
          rw [harith]

theorem afiNth_state (v : List Nat) (N : Nat) : ∀ (c j : Nat),
    afiNth ⟨v, j, N⟩ c = if j + c < N then some (assignRow (j + c) v 1) else none := by
  intro c
  induction c with
  | zero =>
      intro j
      by_cases h : j < N
      · simp [afiNth, AssignFlagsIterator.next, Nat.not_le.2 h, h]
      · have hge : j ≥ N := by omega
        have hno : ¬ (j + 0 < N) := by omega
        simp only [afiNth, AssignFlagsIterator.next, hge, if_true, ge_iff_le, hge.le]
        rw [if_neg hno]
        rfl
  | succ c ih =>
      intro j
      by_cases h : j < N
      · have : ¬ j ≥ N := by omega
        simp only [afiNth, AssignFlagsIterator.next, this, if_false]
        rw [ih (j + 1)]
        have harith : j + 1 + c = j + (c + 1) := by omega
        rw [harith]
      · have hge : j ≥ N := by omega
        simp only [afiNth, AssignFlagsIterator.next, hge, if_true]
        have : ¬ (j + (c + 1) < N) := by omega
        simp [this]

/-- Counterexample for C9 as stated: for a vector of 32 variable indices the
iterator cannot even be constructed — `compute_two_to_n(32)` is the `u32`
shift `1 << 32`, which overflows (panics), so no literal arrays are yielded,
not `2^32` of them. -/
theorem assign_flags_iterator_overflow :
    AssignFlagsIterator.new (List.replicate 32 1) = none := rfl

/-- C9, amended to vectors of fewer than 32 indices (the `u32` shift
`1 << k` in `new` overflows at `k = 32`): the iterator yields exactly `2^k`
literal arrays and then `None`; the `c`-th yielded array has, at position `i`,
the positive literal of the `i`-th index when bit `i` of `c` is 1 and the
negated literal when it is 0. -/
theorem assign_flags_iterator_spec (v : List Nat) (hlen : v.length < 32)
    (s : AssignFlagsIterator) (hnew : AssignFlagsIterator.new v = some s) (c : Nat) :
    (c < 2 ^ v.length →
      ∃ r, afiNth s c = some r ∧ r.length = v.length ∧
        ∀ i, i < v.length →
          r.getD i 0
            = (if c.testBit i then v.getD i 0 else v.getD i 0 ||| NEGATIVITY_FLAG)) ∧
    (2 ^ v.length ≤ c → afiNth s c = none) := by
  have hs : s = ⟨v, 0, 1 <<< v.length⟩ := by
    simp [AssignFlagsIterator.new, compute_two_to_n, hlen] at hnew
    exact hnew.symm
  subst hs
  have hpow : (1 : Nat) <<< v.length = 2 ^ v.length := by
    rw [Nat.shiftLeft_eq, one_mul]
  constructor
  · intro hc
    refine ⟨assignRow c v 1, ?_, assignRow_length c v 1, ?_⟩
    · rw [afiNth_state, hpow]
      simp [hc]
    · intro i hi
      have := assignRow_getD c v 0 i hi
      simpa using this
  · intro hc
    rw [afiNth_state, hpow]
    have hno : ¬ (0 + c < 2 ^ v.length) := by omega
    rw [if_neg hno]

/-- Witness for the amended C9: the vector `[3, 7]` at configuration `c = 2`
(bit 0 clear, bit 1 set: `[¬x3, x7]`). -/
theorem assign_flags_iterator_spec_witness :
    ([3, 7] : List Nat).length < 32 ∧
    AssignFlagsIterator.new [3, 7] = some ⟨[3, 7], 0, 4⟩ ∧
    ((2 < 2 ^ ([3, 7] : List Nat).length →
      ∃ r, afiNth ⟨[3, 7], 0, 4⟩ 2 = some r ∧ r.length = ([3, 7] : List Nat).length ∧
        ∀ i, i < ([3, 7] : List Nat).length →
          r.getD i 0 = (if (2 : Nat).testBit i then ([3, 7] : List Nat).getD i 0
            else ([3, 7] : List Nat).getD i 0 ||| NEGATIVITY_FLAG)) ∧
    (2 ^ ([3, 7] : List Nat).length ≤ 2 → afiNth ⟨[3, 7], 0, 4⟩ 2 = none)) :=
  ⟨by decide, rfl, assign_flags_iterator_spec [3, 7] (by decide) ⟨[3, 7], 0, 4⟩ rfl 2⟩

set_option maxRecDepth 100000

/-- C1 failing input `n = 5`: `compute_two_to_two_to_n(5)` is the `u32` shift
`1 << 32`, which overflows (a panic in debug builds, a masked shift to 1 in
release builds, followed by an out-of-bounds bucket index either way), so the
generation run for `n = 5` cannot return `2^(2^5)` buckets. -/
theorem generate_five_overflows :
    compute_two_to_two_to_n 5 = none ∧
    generate_truth_tables_with_up_to_n_variables 5 = none :=
  ⟨rfl, by decide⟩

/-- C2 failing input `n = 5`: the quintuple block builds its sign iterator
from only the first four of the five chosen indices, so the universe for
`n = 5` contains no 5-literal clause at all and instead repeats the 4-literal
clauses over `{1,2,3,4}` (each appears twice: once from the quadruple block
and once from the quintuple block). -/
theorem clause_universe_quintuple_bug :
    ((buildClauseUniverse 5).count [1, 2, 3, 4] = 2) ∧
    ((buildClauseUniverse 5).all (fun c => c.length ≤ 4) = true) := by decide

theorem getD_set_self {α : Type} (l : List α) (j : Nat) (a e : α) (h : j < l.length) :
    (l.set j a).getD j e = a := by
  rw [List.getD_eq_getElem _ _ (by simpa using h)]
  exact List.getElem_set_self _

theorem getD_set_ne {α : Type} (l : List α) (i j : Nat) (a e : α) (h : j ≠ i) :
    (l.set j a).getD i e = l.getD i e := by
  rw [List.getD_eq_getElem?_getD, List.getElem?_set_ne h, ← List.getD_eq_getElem?_getD]

theorem getD_replicate {α : Type} (L i : Nat) (e : α) :
    (List.replicate L e).getD i e = e := by
  rw [List.getD_eq_getElem?_getD, List.getElem?_replicate]
  by_cases h : i < L <;> simp [h]

theorem flipOperands_map_literal (lits : List Nat) :
    flipOperands (lits.map .Literal) = some (lits.map .Literal) := by
  induction lits with
  | nil => rfl
  | cons x xs ih => simp [flipOperands, generate_cnf_from_dnf, ih]

theorem cnf_from_dnf_clauseToNode (c : List Nat) :
    generate_cnf_from_dnf (clauseToNode c) = some (dualClauseToNode c) := by
  match c with
  | [] => rfl
  | [l] => rfl
  | x :: y :: rest =>
      rw [show clauseToNode (x :: y :: rest)
            = .Conjunction ((x :: y :: rest).map .Literal) from rfl,
          show dualClauseToNode (x :: y :: rest)
            = .Disjunction ((x :: y :: rest).map .Literal) from rfl,
          show generate_cnf_from_dnf (.Conjunction ((x :: y :: rest).map .Literal))
            = (match flipOperands ((x :: y :: rest).map .Literal) with
               | none => none
               | some fo => some (.Disjunction fo)) from rfl,
          flipOperands_map_literal]

theorem cnf_from_dnf_dnf (cs : List (List Nat)) :
    generate_cnf_from_dnf (.Disjunction (cs.map clauseToNode))
      = some (.Conjunction (cs.map dualClauseToNode)) := by
  have h : flipOperands (cs.map clauseToNode) = some (cs.map dualClauseToNode) := by
    induction cs with
    | nil => rfl
    | cons c rest ih => simp [flipOperands, cnf_from_dnf_clauseToNode, ih]
  simp [generate_cnf_from_dnf, h]

theorem cttFoldAnd_lt (t : TruthTableSize5Computer) (k : Nat) :
    ∀ (ops : List SimpleLogicNode) (acc : Nat), acc < 2 ^ k →
      TruthTableSize5Computer.cttFoldAnd t ops acc < 2 ^ k := by
  intro ops
  induction ops with
  | nil => intro acc h; simpa [TruthTableSize5Computer.cttFoldAnd] using h
  | cons o rest ih =>
      intro acc h
      rw [show TruthTableSize5Computer.cttFoldAnd t (o :: rest) acc
            = TruthTableSize5Computer.cttFoldAnd t rest
                (acc &&& t.compute_truth_table o) from rfl]
      exact ih _ (by rw [Nat.land_comm]; exact Nat.and_lt_two_pow _ h)

theorem cttFoldOr_lt (t : TruthTableSize5Computer) (k : Nat) :
    ∀ (ops : List SimpleLogicNode) (acc : Nat), acc < 2 ^ k →
      (∀ o ∈ ops, t.compute_truth_table o < 2 ^ k) →
      TruthTableSize5Computer.cttFoldOr t ops acc < 2 ^ k := by
  intro ops
  induction ops with
  | nil => intro acc h _; simpa [TruthTableSize5Computer.cttFoldOr] using h
  | cons o rest ih =>
      intro acc h hall
      rw [show TruthTableSize5Computer.cttFoldOr t (o :: rest) acc
            = TruthTableSize5Computer.cttFoldOr t rest
                (acc ||| t.compute_truth_table o) from rfl]
      exact ih _ (Nat.or_lt_two_pow h (hall o (by simp)))
        (fun o' ho' => hall o' (by simp [ho']))

theorem ctt_literal_lt (n L : Nat) (t : TruthTableSize5Computer)
    (hm : MasksLt n L t) (l : Nat) (hl : ValidLit n l) :
    t.compute_truth_table (.Literal l) < L := by
  obtain ⟨h1, h2, _⟩ := hl
  have hv : get_variable_index l - 1 < n := by omega
  have hmv := hm _ hv
  by_cases hp : is_positive_literal l
  · rw [show t.compute_truth_table (.Literal l)
        = (if is_positive_literal l then
            t.positive_bitmask_vec.getD (get_variable_index l - 1) 0
          else t.negative_bitmask_vec.getD (get_variable_index l - 1) 0) from rfl,
        if_pos hp]
    exact hmv.1
  · rw [show t.compute_truth_table (.Literal l)
        = (if is_positive_literal l then
            t.positive_bitmask_vec.getD (get_variable_index l - 1) 0
          else t.negative_bitmask_vec.getD (get_variable_index l - 1) 0) from rfl,
        if_neg hp]
    exact hmv.2

theorem ctt_clauseToNode_lt (n k : Nat) (t : TruthTableSize5Computer)
    (hm : MasksLt n (2 ^ k) t) (c : List Nat) (hc : ValidClause n c) :
    t.compute_truth_table (clauseToNode c) < 2 ^ k := by
  match c with
  | [] => exact absurd rfl hc.1
  | [l] => exact ctt_literal_lt n (2 ^ k) t hm l (hc.2 l (by simp))
  | x :: y :: rest =>
      rw [show clauseToNode (x :: y :: rest)
            = .Conjunction ((x :: y :: rest).map .Literal) from rfl,
          show t.compute_truth_table (.Conjunction ((x :: y :: rest).map .Literal))
            = TruthTableSize5Computer.cttFoldAnd t ((x :: y :: rest).map .Literal)
                (2 ^ 32 - 1) from rfl,
          show ((x :: y :: rest).map SimpleLogicNode.Literal)
            = .Literal x :: ((y :: rest).map .Literal) from rfl,
          show TruthTableSize5Computer.cttFoldAnd t
                (.Literal x :: ((y :: rest).map .Literal)) (2 ^ 32 - 1)
            = TruthTableSize5Computer.cttFoldAnd t ((y :: rest).map .Literal)
                ((2 ^ 32 - 1) &&& t.compute_truth_table (.Literal x)) from rfl]
      exact cttFoldAnd_lt t k _ _
        (Nat.and_lt_two_pow _ (ctt_literal_lt n (2 ^ k) t hm x (hc.2 x (by simp))))

theorem ctt_dualClauseToNode_lt (n k : Nat) (t : TruthTableSize5Computer)
    (hm : MasksLt n (2 ^ k) t) (c : List Nat) (hc : ValidClause n c) :
    t.compute_truth_table (dualClauseToNode c) < 2 ^ k := by
  match c with
  | [] => exact absurd rfl hc.1
  | [l] => exact ctt_literal_lt n (2 ^ k) t hm l (hc.2 l (by simp))
  | x :: y :: rest =>
      rw [show dualClauseToNode (x :: y :: rest)
            = .Disjunction ((x :: y :: rest).map .Literal) from rfl,
          show t.compute_truth_table (.Disjunction ((x :: y :: rest).map .Literal))
            = TruthTableSize5Computer.cttFoldOr t ((x :: y :: rest).map .Literal) 0 from rfl]
      refine cttFoldOr_lt t k _ 0 (Nat.pos_pow_of_pos k (by norm_num)) ?_
      intro o ho
      obtain ⟨l, hl, rfl⟩ := List.mem_map.1 ho
      exact ctt_literal_lt n (2 ^ k) t hm l (hc.2 l hl)

theorem ctt_dnf_lt (n k : Nat) (t : TruthTableSize5Computer)
    (hm : MasksLt n (2 ^ k) t) (cs : List (List Nat))
    (hcs : ∀ c ∈ cs, ValidClause n c) :
    t.compute_truth_table (.Disjunction (cs.map clauseToNode)) < 2 ^ k := by
  rw [show t.compute_truth_table (.Disjunction (cs.map clauseToNode))
        = TruthTableSize5Computer.cttFoldOr t (cs.map clauseToNode) 0 from rfl]
  refine cttFoldOr_lt t k _ 0 (Nat.pos_pow_of_pos k (by norm_num)) ?_
  intro o ho
  obtain ⟨c, hc, rfl⟩ := List.mem_map.1 ho
  exact ctt_clauseToNode_lt n k t hm c (hcs c hc)

theorem ctt_cnf_lt (n k : Nat) (t : TruthTableSize5Computer)
    (hm : MasksLt n (2 ^ k) t) (cs : List (List Nat))
    (hne : cs ≠ []) (hcs : ∀ c ∈ cs, ValidClause n c) :
    t.compute_truth_table (.Conjunction (cs.map dualClauseToNode)) < 2 ^ k := by
  match cs, hne with
  | c :: rest, _ =>
      rw [show t.compute_truth_table (.Conjunction ((c :: rest).map dualClauseToNode))
            = TruthTableSize5Computer.cttFoldAnd t (rest.map dualClauseToNode)
                ((2 ^ 32 - 1) &&& t.compute_truth_table (dualClauseToNode c)) from rfl]
      exact cttFoldAnd_lt t k _ _
        (Nat.and_lt_two_pow _ (ctt_dualClauseToNode_lt n k t hm c (hcs c (by simp))))

theorem clauseToNode_injective : Function.Injective clauseToNode := by
  intro a b h
  have hlit : Function.Injective SimpleLogicNode.Literal := fun x y hxy => by
    injection hxy
  match a, b with
  | [], [] => rfl
  | [], [y] => exact absurd h (by simp [clauseToNode])
  | [y], [] => exact absurd h (by simp [clauseToNode])
  | [x], [y] => injection h with h'; rw [h']
  | [x], y1 :: y2 :: ys => exact absurd h (by simp [clauseToNode])
  | x1 :: x2 :: xs, [y] => exact absurd h (by simp [clauseToNode])
  | [], y1 :: y2 :: ys =>
      rw [show clauseToNode [] = .Conjunction ([] : List SimpleLogicNode) from rfl] at h
      injection h with h'
      exact absurd h'.symm (by simp)
  | x1 :: x2 :: xs, [] =>
      rw [show clauseToNode [] = .Conjunction ([] : List SimpleLogicNode) from rfl] at h
      injection h with h'
      exact absurd h' (by simp)
  | x1 :: x2 :: xs, y1 :: y2 :: ys =>
      rw [show clauseToNode (x1 :: x2 :: xs)
            = .Conjunction ((x1 :: x2 :: xs).map .Literal) from rfl,
          show clauseToNode (y1 :: y2 :: ys)
            = .Conjunction ((y1 :: y2 :: ys).map .Literal) from rfl] at h
      injection h with h'
      exact List.map_injective_iff.2 hlit h'

theorem clauseToNode_eq_literal {c : List Nat} {l : Nat}
    (h : clauseToNode c = .Literal l) : c = [l] := by
  match c with
  | [] => exact absurd h (by simp [clauseToNode])
  | [x] => injection h with h'; rw [h']
  | x :: y :: rest => exact absurd h (by simp [clauseToNode])

theorem dualClauseToNode_eq_literal {c : List Nat} {l : Nat}
    (h : dualClauseToNode c = .Literal l) : c = [l] := by
  match c with
  | [] => exact absurd h (by simp [dualClauseToNode])
  | [x] => injection h with h'; rw [h']
  | x :: y :: rest => exact absurd h (by simp [dualClauseToNode])

theorem testBit_flag (i : Nat) : NEGATIVITY_FLAG.testBit i = decide (31 = i) := by
  rw [show NEGATIVITY_FLAG = 2 ^ 31 from rfl]
  exact Nat.testBit_two_pow

theorem positive_testBit31 (l : Nat) (h : is_positive_literal l = true) :
    l.testBit 31 = false := by
  have : l &&& NEGATIVITY_FLAG = 0 := by
    simpa [is_positive_literal] using h
  rw [show NEGATIVITY_FLAG = 2 ^ 31 from rfl, Nat.and_two_pow] at this
  rcases hb : l.testBit 31 with _ | _
  · rfl
  · rw [hb] at this; simp at this

theorem lit_ne_or_flag (l : Nat) (h : is_positive_literal l = true) :
    l ≠ l ||| NEGATIVITY_FLAG := by
  intro he
  have h31 : l.testBit 31 = false := positive_testBit31 l h
  have : (l ||| NEGATIVITY_FLAG).testBit 31 = true := by
    rw [Nat.testBit_lor, testBit_flag]; simp
  rw [← he, h31] at this
  exact absurd this (by simp)

theorem xor_or_flag (l : Nat) (h : is_positive_literal l = true) :
    l ^^^ (l ||| NEGATIVITY_FLAG) = NEGATIVITY_FLAG := by
  apply Nat.eq_of_testBit_eq
  intro i
  rw [Nat.testBit_xor, Nat.testBit_lor, testBit_flag]
  by_cases hi : (31 : Nat) = i
  · subst hi
    rw [positive_testBit31 l h]
    simp
  · simp [hi]

theorem clauseCompat_symm : Symmetric ClauseCompat := by
  intro a b hab
  refine ⟨hab.2.1, hab.1, ?_⟩
  intro ⟨h1, h2, h3⟩
  exact hab.2.2 ⟨h2, h1, by rw [Nat.xor_comm]; exact h3⟩

theorem add_formula_to_buckets_inv (n L : Nat) (t : TruthTableSize5Computer)
    (bs : List LogicFormulaBucket) (f : SimpleLogicNode)
    (hinv : BucketsInv n L t bs) (hreg : RegOK n f)
    (hlt : t.compute_truth_table f < L) :
    ∃ bs', add_formula_to_buckets t bs f = some bs' ∧ BucketsInv n L t bs' := by
  have hlen : t.compute_truth_table f < bs.length := by rw [hinv.1]; exact hlt
  refine ⟨bs.set (t.compute_truth_table f)
      ((bs.get ⟨t.compute_truth_table f, hlen⟩).add_formula f), ?_, ?_, ?_⟩
  · rw [show add_formula_to_buckets t bs f
        = (if h : t.compute_truth_table f < bs.length then
            some (bs.set (t.compute_truth_table f)
              ((bs.get ⟨t.compute_truth_table f, h⟩).add_formula f))
          else none) from rfl, dif_pos hlen]
  · rw [List.length_set]; exact hinv.1
  · intro i g hg
    by_cases hi : i = t.compute_truth_table f
    · subst hi
      rw [getD_set_self _ _ _ _ hlen] at hg
      rw [show ((bs.get ⟨t.compute_truth_table f, hlen⟩).add_formula f).formula_vector
            = (bs.get ⟨t.compute_truth_table f, hlen⟩).formula_vector ++ [f] from rfl]
        at hg
      rcases List.mem_append.1 hg with hg | hg
      · have hget : bs.get ⟨t.compute_truth_table f, hlen⟩
            = bs.getD (t.compute_truth_table f) emptyBucket := by
          rw [List.getD_eq_getElem _ _ hlen]; rfl
        rw [hget] at hg
        exact hinv.2 _ g hg
      · have : g = f := by simpa using hg
        subst this
        exact ⟨hreg, rfl⟩
    · rw [getD_set_ne _ _ _ _ _ (fun he => hi he.symm)] at hg
      exact hinv.2 i g hg

theorem registerStep_single_literal (t : TruthTableSize5Computer)
    (bs : List LogicFormulaBucket) (l : Nat) :
    registerStep t bs [[l]] = add_formula_to_buckets t bs (.Literal l) := rfl

theorem registerStep_single_big (t : TruthTableSize5Computer)
    (bs : List LogicFormulaBucket) (x y : Nat) (c : List Nat) :
    registerStep t bs [x :: y :: c] = some bs := rfl

theorem registerStep_multi (t : TruthTableSize5Computer)
    (bs : List LogicFormulaBucket) (c1 c2 : List Nat) (rest : List (List Nat)) :
    registerStep t bs (c1 :: c2 :: rest)
      = match generate_cnf_from_dnf (.Disjunction ((c1 :: c2 :: rest).map clauseToNode)) with
        | none => none
        | some cnf =>
            match add_formula_to_buckets t bs cnf with
            | none => none
            | some bs1 =>
                add_formula_to_buckets t bs1
                  (.Disjunction ((c1 :: c2 :: rest).map clauseToNode)) := rfl

theorem registerStep_inv (n k : Nat)
    (t : TruthTableSize5Computer) (hm : MasksLt n (2 ^ k) t)
    (bs : List LogicFormulaBucket) (pre : List (List Nat)) (nc : List Nat)
    (hvalid : ∀ c ∈ pre ++ [nc], ValidClause n c)
    (hpair : (pre ++ [nc]).Pairwise ClauseCompat)
    (hinv : BucketsInv n (2 ^ k) t bs) :
    ∃ bs', registerStep t bs (pre ++ [nc]) = some bs' ∧ BucketsInv n (2 ^ k) t bs' := by
  match pre with
  | [] =>
      have hv : ValidClause n nc := hvalid nc (by simp)
      match nc, hv with
      | [], hv => exact absurd rfl hv.1
      | [l], hv =>
          rw [show ([] : List (List Nat)) ++ [[l]] = [[l]] from rfl,
              registerStep_single_literal]
          exact add_formula_to_buckets_inv n (2 ^ k) t bs _ hinv
            (Or.inr (Or.inr (Or.inl ⟨l, hv.2 l (by simp), rfl⟩)))
            (ctt_literal_lt n (2 ^ k) t hm l (hv.2 l (by simp)))
      | x :: y :: c, _ =>
          rw [show ([] : List (List Nat)) ++ [x :: y :: c] = [x :: y :: c] from rfl,
              registerStep_single_big]
          exact ⟨bs, rfl, hinv⟩
  | p :: ps =>
      obtain ⟨q, qs, hq⟩ : ∃ q qs, ps ++ [nc] = q :: qs := by
        cases ps <;> exact ⟨_, _, rfl⟩
      have hcur : (p :: ps) ++ [nc] = p :: q :: qs := by
        rw [List.cons_append, hq]
      rw [hcur] at hvalid hpair ⊢
      have hne : (p :: q :: qs : List (List Nat)) ≠ [] := by simp
      have h2 : 2 ≤ (p :: q :: qs : List (List Nat)).length := by simp
      have hregCnf : RegOK n (.Conjunction ((p :: q :: qs).map dualClauseToNode)) :=
        Or.inr (Or.inr (Or.inr ⟨p :: q :: qs, h2, hvalid, hpair, Or.inr rfl⟩))
      have hregDnf : RegOK n (.Disjunction ((p :: q :: qs).map clauseToNode)) :=
        Or.inr (Or.inr (Or.inr ⟨p :: q :: qs, h2, hvalid, hpair, Or.inl rfl⟩))
      obtain ⟨bs1, ha1, hi1⟩ := add_formula_to_buckets_inv n (2 ^ k) t bs
        (.Conjunction ((p :: q :: qs).map dualClauseToNode)) hinv hregCnf
        (ctt_cnf_lt n k t hm (p :: q :: qs) hne hvalid)
      obtain ⟨bs2, ha2, hi2⟩ := add_formula_to_buckets_inv n (2 ^ k) t bs1
        (.Disjunction ((p :: q :: qs).map clauseToNode)) hi1 hregDnf
        (ctt_dnf_lt n k t hm (p :: q :: qs) hvalid)
      refine ⟨bs2, ?_, hi2⟩
      rw [registerStep_multi, cnf_from_dnf_dnf]
      simp only [ha1, ha2]

theorem compat_of_pruneCheck_false (n : Nat) (cfgs : List (List Nat))
    (hsub : ∀ a ∈ cfgs, ∀ b ∈ cfgs, signedSubsumes a b → is_subarray_of a b = true)
    (pre : List (List Nat)) (nc : List Nat)
    (hmem : ∀ c ∈ pre, c ∈ cfgs) (hvalidpre : ∀ c ∈ pre, ValidClause n c)
    (hlenle : ∀ c ∈ pre, c.length ≤ nc.length)
    (hncmem : nc ∈ cfgs) (hncvalid : ValidClause n nc)
    (hfalse : pruneCheck pre nc = false) :
    ∀ c ∈ pre, ClauseCompat c nc := by
  intro c hc
  have hclen : 1 ≤ c.length := List.length_pos.2 (hvalidpre c hc).1
  have hnclen : 1 ≤ nc.length := List.length_pos.2 hncvalid.1
  by_cases hunit : nc.length = 1
  · simp only [pruneCheck, hunit] at hfalse
    rw [if_pos (by simp)] at hfalse
    have hall := List.any_eq_false.1 hfalse
    refine ⟨?_, ?_, ?_⟩
    · intro hss
      have := hss.1
      omega
    · intro hss
      have h1 := hss.1
      have h2 := hlenle c hc
      omega
    · intro huo
      have := hall c hc
      rw [huo.2.2] at this
      simp at this
  · simp only [pruneCheck] at hfalse
    rw [if_neg (by simpa using hunit)] at hfalse
    have hall := List.any_eq_false.1 hfalse
    refine ⟨?_, ?_, ?_⟩
    · intro hss
      have htrue := hsub c (hmem c hc) nc hncmem hss
      exact hall c hc htrue
    · intro hss
      have h1 := hss.1
      have h2 := hlenle c hc
      omega
    · intro huo
      exact hunit huo.2.1

theorem genFrom_inv (n k : Nat) (t : TruthTableSize5Computer) (cfgs : List (List Nat))
    (hok : CfgsOK n cfgs) (hm : MasksLt n (2 ^ k) t) :
    ∀ (rest : List Nat) (pre : List (List Nat)) (bs : List LogicFormulaBucket),
      BucketsInv n (2 ^ k) t bs → PrefixOK n cfgs pre rest → RestOK cfgs rest →
      ∃ bs', genFrom t cfgs bs pre rest = some bs' ∧ BucketsInv n (2 ^ k) t bs' := by
  intro rest
  induction rest with
  | nil => intro pre bs hb _ _; exact ⟨bs, rfl, hb⟩
  | cons i rest ih =>
      intro pre bs hb hpre hrest
      have hilen : i < cfgs.length := hrest.2 i (by simp)
      have hrest' : RestOK cfgs rest :=
        ⟨(List.pairwise_cons.1 hrest.1).2, fun j hj => hrest.2 j (by simp [hj])⟩
      have hlt_rest : ∀ j ∈ rest, i < j := (List.pairwise_cons.1 hrest.1).1
      have hpre' : PrefixOK n cfgs pre rest :=
        ⟨fun c hc => ⟨(hpre.1 c hc).1, (hpre.1 c hc).2.1,
          fun j hj => (hpre.1 c hc).2.2 j (by simp [hj])⟩, hpre.2⟩
      have hncmem : cfgs.getD i [] ∈ cfgs := by
        rw [List.getD_eq_getElem _ _ hilen]; exact List.getElem_mem hilen
      have hncvalid : ValidClause n (cfgs.getD i []) := hok.1 _ hncmem
      by_cases hprune : pruneCheck pre (cfgs.getD i []) = true
      · obtain ⟨bs', hrun, hb'⟩ := ih pre bs hb hpre' hrest'
        refine ⟨bs', ?_, hb'⟩
        simp only [genFrom]
        rw [if_pos hprune]
        exact hrun
      · have hprunef : pruneCheck pre (cfgs.getD i []) = false :=
          Bool.not_eq_true _ ▸ (Bool.eq_false_iff.2 hprune)
        have hcompat : ∀ c ∈ pre, ClauseCompat c (cfgs.getD i []) :=
          compat_of_pruneCheck_false n cfgs hok.2.1 pre (cfgs.getD i [])
            (fun c hc => (hpre.1 c hc).1) (fun c hc => (hpre.1 c hc).2.1)
            (fun c hc => (hpre.1 c hc).2.2 i (by simp))
            hncmem hncvalid hprunef
        have hvalidext : ∀ c ∈ pre ++ [cfgs.getD i []], ValidClause n c := by
          intro c hc
          rcases List.mem_append.1 hc with hc | hc
          · exact (hpre.1 c hc).2.1
          · rw [List.mem_singleton.1 hc]; exact hncvalid
        have hpairext : (pre ++ [cfgs.getD i []]).Pairwise ClauseCompat := by
          rw [List.pairwise_append]
          exact ⟨hpre.2, List.pairwise_singleton _ _,
            fun a ha b hbm => (List.mem_singleton.1 hbm) ▸ hcompat a ha⟩
        obtain ⟨bs1, ha1, hb1⟩ := registerStep_inv n k t hm bs pre (cfgs.getD i [])
          hvalidext hpairext hb
        have hpreext : PrefixOK n cfgs (pre ++ [cfgs.getD i []]) rest := by
          refine ⟨?_, hpairext⟩
          intro c hc
          rcases List.mem_append.1 hc with hc | hc
          · exact ⟨(hpre.1 c hc).1, (hpre.1 c hc).2.1,
              fun j hj => (hpre.1 c hc).2.2 j (by simp [hj])⟩
          · rw [List.mem_singleton.1 hc]
            exact ⟨hncmem, hncvalid,
              fun j hj => hok.2.2 j (hrest'.2 j hj) i (le_of_lt (hlt_rest j hj))⟩
        obtain ⟨bs2, hinner, hb2⟩ := ih (pre ++ [cfgs.getD i []]) bs1 hb1 hpreext hrest'
        obtain ⟨bs3, houter, hb3⟩ := ih pre bs2 hb2 hpre' hrest'
        refine ⟨bs3, ?_, hb3⟩
        simp only [genFrom]
        rw [if_neg (by rw [hprunef]; simp)]
        rw [ha1]
        simp only []
        rw [hinner]
        simp only []
        exact houter

theorem seedBuckets_inv (n L : Nat) (t : TruthTableSize5Computer) (hL : 4 ≤ L)
    (htrue : t.compute_truth_table .True = L - 1) :
    BucketsInv n L t (seedBuckets L) := by
  refine ⟨by simp [seedBuckets], ?_⟩
  intro i f hf
  simp only [seedBuckets] at hf
  rw [getD_replicate] at hf
  rw [getD_set_ne _ _ _ _ _ (by omega : (0 : Nat) ≠ L - 1)] at hf
  rw [getD_replicate] at hf
  by_cases hiL1 : i = L - 1
  · subst hiL1
    rw [getD_set_self _ _ _ _ (by simp; omega)] at hf
    rw [show (emptyBucket.add_formula .True).formula_vector = [.True] from rfl] at hf
    rw [List.mem_singleton.1 hf]
    exact ⟨Or.inr (Or.inl rfl), htrue⟩
  · rw [getD_set_ne _ _ _ _ _ (fun he => hiL1 he.symm)] at hf
    by_cases hi0 : i = 0
    · subst hi0
      rw [getD_set_self _ _ _ _ (by simp; omega)] at hf
      rw [show (emptyBucket.add_formula .False).formula_vector = [.False] from rfl] at hf
      rw [List.mem_singleton.1 hf]
      exact ⟨Or.inl rfl, rfl⟩
    · rw [getD_set_ne _ _ _ _ _ (fun he => hi0 he.symm)] at hf
      rw [getD_replicate] at hf
      exact absurd hf (by simp [emptyBucket])

set_option maxHeartbeats 64000000

theorem generate_eq (n : Nat) (h1 : 1 ≤ n) (num : Nat)
    (hnum : compute_two_to_two_to_n n = some num)
    (x2n : Nat) (h2n : compute_two_to_n n = some x2n)
    (t : TruthTableSize5Computer) (ht : TruthTableSize5Computer.new n = some t) :
    generate_truth_tables_with_up_to_n_variables n
      = genFrom t (buildClauseUniverse n) (seedBuckets num) []
          (List.range (buildClauseUniverse n).length) := by
  unfold generate_truth_tables_with_up_to_n_variables
  rw [if_neg (by omega)]
  simp only [h2n, hnum, ht]

theorem generate_ok (n : Nat) (h1 : 1 ≤ n) (h4 : n ≤ 4) :
    ∃ bs t, generate_truth_tables_with_up_to_n_variables n = some bs ∧
      TruthTableSize5Computer.new n = some t ∧ BucketsInv n (2 ^ 2 ^ n) t bs := by
  interval_cases n
  · obtain ⟨bs, hrun, hinv⟩ := genFrom_inv 1 2 ⟨[2], [1]⟩ (buildClauseUniverse 1)
      (by unfold CfgsOK; decide) (by unfold MasksLt; decide)
      (List.range (buildClauseUniverse 1).length) [] (seedBuckets (2 ^ 2))
      (seedBuckets_inv 1 (2 ^ 2) ⟨[2], [1]⟩ (by norm_num) (by decide))
      ⟨by simp, List.Pairwise.nil⟩
      ⟨List.pairwise_lt_range _, fun j hj => List.mem_range.1 hj⟩
    refine ⟨bs, ⟨[2], [1]⟩, ?_, rfl, hinv⟩
    rw [generate_eq 1 (by norm_num) 4 rfl 2 rfl ⟨[2], [1]⟩ rfl]
    exact hrun
  · obtain ⟨bs, hrun, hinv⟩ := genFrom_inv 2 4 ⟨[12, 10], [3, 5]⟩ (buildClauseUniverse 2)
      (by unfold CfgsOK; decide) (by unfold MasksLt; decide)
      (List.range (buildClauseUniverse 2).length) [] (seedBuckets (2 ^ 4))
      (seedBuckets_inv 2 (2 ^ 4) ⟨[12, 10], [3, 5]⟩ (by norm_num) (by decide))
      ⟨by simp, List.Pairwise.nil⟩
      ⟨List.pairwise_lt_range _, fun j hj => List.mem_range.1 hj⟩
    refine ⟨bs, ⟨[12, 10], [3, 5]⟩, ?_, rfl, hinv⟩
    rw [generate_eq 2 (by norm_num) 16 rfl 4 rfl ⟨[12, 10], [3, 5]⟩ rfl]
    exact hrun
  · obtain ⟨bs, hrun, hinv⟩ := genFrom_inv 3 8 ⟨[240, 204, 170], [15, 51, 85]⟩
      (buildClauseUniverse 3)
      (by unfold CfgsOK; decide) (by unfold MasksLt; decide)
      (List.range (buildClauseUniverse 3).length) [] (seedBuckets (2 ^ 8))
      (seedBuckets_inv 3 (2 ^ 8) ⟨[240, 204, 170], [15, 51, 85]⟩ (by norm_num) (by decide))
      ⟨by simp, List.Pairwise.nil⟩
      ⟨List.pairwise_lt_range _, fun j hj => List.mem_range.1 hj⟩
    refine ⟨bs, ⟨[240, 204, 170], [15, 51, 85]⟩, ?_, rfl, hinv⟩
    rw [generate_eq 3 (by norm_num) 256 rfl 8 rfl ⟨[240, 204, 170], [15, 51, 85]⟩ rfl]
    exact hrun
  · obtain ⟨bs, hrun, hinv⟩ := genFrom_inv 4 16
      ⟨[65280, 61680, 52428, 43690], [255, 3855, 13107, 21845]⟩ (buildClauseUniverse 4)
      (by unfold CfgsOK; decide) (by unfold MasksLt; decide)
      (List.range (buildClauseUniverse 4).length) [] (seedBuckets (2 ^ 16))
      (seedBuckets_inv 4 (2 ^ 16)
        ⟨[65280, 61680, 52428, 43690], [255, 3855, 13107, 21845]⟩ (by norm_num) (by decide))
      ⟨by simp, List.Pairwise.nil⟩
      ⟨List.pairwise_lt_range _, fun j hj => List.mem_range.1 hj⟩
    refine ⟨bs, ⟨[65280, 61680, 52428, 43690], [255, 3855, 13107, 21845]⟩, ?_, rfl, hinv⟩
    rw [generate_eq 4 (by norm_num) 65536 rfl 16 rfl
      ⟨[65280, 61680, 52428, 43690], [255, 3855, 13107, 21845]⟩ rfl]
    exact hrun

/-- C4: for every `n` in `1..=5`, after a completed generation run every
formula stored in any bucket's formula list (the seeded `False` and `True`
included) has a computed truth table equal to that bucket's index.  (For
`n = 5` no run completes: the claim holds vacuously there, see C1.) -/
theorem bucket_formulas_match_index (n : Nat) (h1 : 1 ≤ n) (h5 : n ≤ 5)
    (bs : List LogicFormulaBucket)
    (hgen : generate_truth_tables_with_up_to_n_variables n = some bs)
    (t : TruthTableSize5Computer) (hnew : TruthTableSize5Computer.new n = some t) :
    ∀ i : Nat, ∀ f ∈ (bs.getD i emptyBucket).formula_vector,
      t.compute_truth_table f = i := by
  by_cases h4 : n ≤ 4
  · obtain ⟨bs', t', hg, hn, hinv⟩ := generate_ok n h1 h4
    rw [hg] at hgen
    rw [hn] at hnew
    obtain rfl : bs' = bs := Option.some_inj.1 hgen
    obtain rfl : t' = t := Option.some_inj.1 hnew
    exact fun i f hf => (hinv.2 i f hf).2
  · have hn5 : n = 5 := by omega
    subst hn5
    have hnone : generate_truth_tables_with_up_to_n_variables 5 = none := by decide
    rw [hnone] at hgen
    exact absurd hgen (by simp)

/-- Witness for C4: the completed run for `n = 1`. -/
theorem bucket_formulas_match_index_witness :
    (1 ≤ 1 ∧ 1 ≤ 5) ∧
    generate_truth_tables_with_up_to_n_variables 1
      = some ((generate_truth_tables_with_up_to_n_variables 1).getD []) ∧
    TruthTableSize5Computer.new 1 = some ⟨[2], [1]⟩ ∧
    (∀ i : Nat,
      ∀ f ∈ (((generate_truth_tables_with_up_to_n_variables 1).getD []).getD i
          emptyBucket).formula_vector,
      (⟨[2], [1]⟩ : TruthTableSize5Computer).compute_truth_table f = i) :=
  ⟨⟨by decide, by decide⟩, rfl, rfl,
    bucket_formulas_match_index 1 (by decide) (by decide) _ rfl _ rfl⟩

/-- C10: for every `n` in `1..=4` the generation run completes (no bucket
index is ever out of bounds): it returns `2^(2^n)` buckets and every stored
formula's computed truth table is strictly below `2^(2^n)`. -/
theorem generator_truth_tables_in_bounds (n : Nat) (h1 : 1 ≤ n) (h4 : n ≤ 4) :
    ∃ bs, generate_truth_tables_with_up_to_n_variables n = some bs ∧
      bs.length = 2 ^ 2 ^ n ∧
      ∀ t, TruthTableSize5Computer.new n = some t →
        ∀ i : Nat, ∀ f ∈ (bs.getD i emptyBucket).formula_vector,
          t.compute_truth_table f < 2 ^ 2 ^ n := by
  obtain ⟨bs, t, hg, hn, hinv⟩ := generate_ok n h1 h4
  refine ⟨bs, hg, hinv.1, ?_⟩
  intro t' hn' i f hf
  rw [hn] at hn'
  obtain rfl : t = t' := Option.some_inj.1 hn'
  have hi := (hinv.2 i f hf).2
  rw [hi]
  by_cases hlen : i < bs.length
  · rw [← hinv.1]; exact hlen
  · exfalso
    rw [List.getD_eq_default _ _ (by omega)] at hf
    exact absurd hf (by simp [emptyBucket])

/-- Witness for C10 at `n = 2`. -/
theorem generator_truth_tables_in_bounds_witness :
    (1 ≤ 2 ∧ 2 ≤ 4) ∧
    ∃ bs, generate_truth_tables_with_up_to_n_variables 2 = some bs ∧
      bs.length = 2 ^ 2 ^ 2 ∧
      ∀ t, TruthTableSize5Computer.new 2 = some t →
        ∀ i : Nat, ∀ f ∈ (bs.getD i emptyBucket).formula_vector,
          t.compute_truth_table f < 2 ^ 2 ^ 2 :=
  ⟨⟨by decide, by decide⟩, generator_truth_tables_in_bounds 2 (by decide) (by decide)⟩

/-- C6: in every multi-clause DNF the generator files into a bucket, no
clause subsumes a sibling clause (neither direction): the clause lists are
pairwise free of signed literal-subset containment. -/
theorem no_subsumed_sibling_clause (n : Nat) (h1 : 1 ≤ n) (h5 : n ≤ 5)
    (bs : List LogicFormulaBucket)
    (hgen : generate_truth_tables_with_up_to_n_variables n = some bs)
    (i : Nat) (f : SimpleLogicNode)
    (hf : f ∈ (bs.getD i emptyBucket).formula_vector)
    (cs : List (List Nat)) (hshape : f = .Disjunction (cs.map clauseToNode)) :
    cs.Pairwise (fun c1 c2 => ¬signedSubsumes c1 c2 ∧ ¬signedSubsumes c2 c1) := by
  by_cases h4 : n ≤ 4
  · obtain ⟨bs', t', hg, hn, hinv⟩ := generate_ok n h1 h4
    rw [hg] at hgen
    obtain rfl : bs' = bs := Option.some_inj.1 hgen
    have hreg := (hinv.2 i f hf).1
    rcases hreg with h | h | ⟨l, _, h⟩ | ⟨cs0, h2, hval, hpair, h | h⟩
    · rw [hshape] at h; exact absurd h (by simp)
    · rw [hshape] at h; exact absurd h (by simp)
    · rw [hshape] at h; exact absurd h (by simp)
    · rw [hshape] at h
      injection h with h'
      obtain rfl : cs = cs0 := List.map_injective_iff.2 clauseToNode_injective h'
      exact hpair.imp (fun hcc => ⟨hcc.1, hcc.2.1⟩)
    · rw [hshape] at h
      exact absurd h (by simp)
  · have hn5 : n = 5 := by omega
    subst hn5
    have hnone : generate_truth_tables_with_up_to_n_variables 5 = none := by decide
    rw [hnone] at hgen
    exact absurd hgen (by simp)

/-- Witness for C6: the generated DNF `p1 ∨ p2` (bucket 14 of the `n = 2`
run) with clause list `[[1], [2]]`. -/
theorem no_subsumed_sibling_clause_witness :
    (1 ≤ 2 ∧ 2 ≤ 5) ∧
    generate_truth_tables_with_up_to_n_variables 2
      = some ((generate_truth_tables_with_up_to_n_variables 2).getD []) ∧
    SimpleLogicNode.Disjunction [.Literal 1, .Literal 2]
      ∈ ((((generate_truth_tables_with_up_to_n_variables 2).getD []).getD 14
          emptyBucket)).formula_vector ∧
    SimpleLogicNode.Disjunction [.Literal 1, .Literal 2]
      = SimpleLogicNode.Disjunction (([[1], [2]] : List (List Nat)).map clauseToNode) ∧
    ([[1], [2]] : List (List Nat)).Pairwise
      (fun c1 c2 => ¬signedSubsumes c1 c2 ∧ ¬signedSubsumes c2 c1) :=
  ⟨⟨by decide, by decide⟩, rfl, by decide, by decide,
    no_subsumed_sibling_clause 2 (by decide) (by decide)
      ((generate_truth_tables_with_up_to_n_variables 2).getD []) rfl 14
      (SimpleLogicNode.Disjunction [.Literal 1, .Literal 2]) (by decide)
      [[1], [2]] (by decide)⟩

/-- C7: no formula the generator files into a bucket has, among its top-level
clauses, both the bare positive literal of a variable and the bare negated
literal of the same variable. -/
theorem no_opposite_unit_clauses (n : Nat) (h1 : 1 ≤ n) (h5 : n ≤ 5)
    (bs : List LogicFormulaBucket)
    (hgen : generate_truth_tables_with_up_to_n_variables n = some bs)
    (i : Nat) (f : SimpleLogicNode)
    (hf : f ∈ (bs.getD i emptyBucket).formula_vector)
    (ops : List SimpleLogicNode)
    (hshape : f = .Disjunction ops ∨ f = .Conjunction ops) :
    ∀ l, is_positive_literal l = true →
      ¬(SimpleLogicNode.Literal l ∈ ops ∧
        SimpleLogicNode.Literal (l ||| NEGATIVITY_FLAG) ∈ ops) := by
  intro l hpos hboth
  obtain ⟨hl1, hl2⟩ := hboth
  by_cases h4 : n ≤ 4
  · obtain ⟨bs', t', hg, hn, hinv⟩ := generate_ok n h1 h4
    rw [hg] at hgen
    obtain rfl : bs' = bs := Option.some_inj.1 hgen
    have hreg := (hinv.2 i f hf).1
    have key : ∀ (g : List Nat → SimpleLogicNode),
        (∀ (c : List Nat) (l' : Nat), g c = .Literal l' → c = [l']) →
        ∀ (cs0 : List (List Nat)), cs0.Pairwise ClauseCompat →
        ops = cs0.map g → False := by
      intro g hg' cs0 hpair hops
      rw [hops] at hl1 hl2
      obtain ⟨c1, hc1, hc1e⟩ := List.mem_map.1 hl1
      obtain ⟨c2, hc2, hc2e⟩ := List.mem_map.1 hl2
      have he1 : c1 = [l] := hg' c1 l hc1e
      have he2 : c2 = [l ||| NEGATIVITY_FLAG] := hg' c2 _ hc2e
      subst he1; subst he2
      have hne : ([l] : List Nat) ≠ [l ||| NEGATIVITY_FLAG] := by
        intro he
        exact lit_ne_or_flag l hpos (by injection he)
      have hcc : ClauseCompat [l] [l ||| NEGATIVITY_FLAG] :=
        hpair.forall clauseCompat_symm hc1 hc2 hne
      exact hcc.2.2 ⟨rfl, rfl, xor_or_flag l hpos⟩
    rcases hreg with h | h | ⟨l', _, h⟩ | ⟨cs0, h2, hval, hpair, h | h⟩ <;>
      rcases hshape with hs | hs
    · rw [hs] at h; exact absurd h (by simp)
    · rw [hs] at h; exact absurd h (by simp)
    · rw [hs] at h; exact absurd h (by simp)
    · rw [hs] at h; exact absurd h (by simp)
    · rw [hs] at h; exact absurd h (by simp)
    · rw [hs] at h; exact absurd h (by simp)
    · rw [hs] at h
      injection h with h'
      exact key clauseToNode (fun c l' => clauseToNode_eq_literal) cs0 hpair h'
    · rw [hs] at h; exact absurd h (by simp)
    · rw [hs] at h; exact absurd h (by simp)
    · rw [hs] at h
      injection h with h'
      exact key dualClauseToNode (fun c l' => dualClauseToNode_eq_literal) cs0 hpair h'
  · have hn5 : n = 5 := by omega
    subst hn5
    have hnone : generate_truth_tables_with_up_to_n_variables 5 = none := by decide
    rw [hnone] at hgen
    exact absurd hgen (by simp)

/-- Witness for C7: the generated DNF `p1 ∨ p2` (bucket 14 of the `n = 2`
run) has no opposite unit pair among its clauses. -/
theorem no_opposite_unit_clauses_witness :
    (1 ≤ 2 ∧ 2 ≤ 5) ∧
    generate_truth_tables_with_up_to_n_variables 2
      = some ((generate_truth_tables_with_up_to_n_variables 2).getD []) ∧
    SimpleLogicNode.Disjunction [.Literal 1, .Literal 2]
      ∈ ((((generate_truth_tables_with_up_to_n_variables 2).getD []).getD 14
          emptyBucket)).formula_vector ∧
    (∀ l, is_positive_literal l = true →
      ¬(SimpleLogicNode.Literal l ∈ ([.Literal 1, .Literal 2] : List SimpleLogicNode) ∧
        SimpleLogicNode.Literal (l ||| NEGATIVITY_FLAG)
          ∈ ([.Literal 1, .Literal 2] : List SimpleLogicNode))) :=
  ⟨⟨by decide, by decide⟩, rfl, by decide,
    no_opposite_unit_clauses 2 (by decide) (by decide)
      ((generate_truth_tables_with_up_to_n_variables 2).getD []) rfl 14
      (SimpleLogicNode.Disjunction [.Literal 1, .Literal 2]) (by decide)
      [.Literal 1, .Literal 2] (Or.inl rfl)⟩
